import Mathlib

/-!
# ALFRED Bluetooth remote control: a shallow embedding

The firmware `Arduino-Bluetooth/ArduinoBluetooth.cpp` targets an 8-bit AVR
(ATmega16/32 register names): `byte` is an unsigned 8-bit integer, `int` a
16-bit two's complement integer and `long` a 32-bit one.  Bytes and registers
are natural numbers reduced modulo 256 where the source can overflow, `int`
values are integers wrapped by `wrap16`.
-/

namespace Alfred

/-! ## Machine integers -/

/-- Two's complement wrap of an integer into the range of a 16-bit `int`. -/
def wrap16 (x : Int) : Int := (x + 32768) % 65536 - 32768

/-- Two's complement wrap of an integer into the range of a 32-bit `long`. -/
def wrap32 (x : Int) : Int := (x + 2147483648) % 4294967296 - 2147483648

/-! ## Command parser (`parseCommand`, source lines 112-161) -/

/-- The `while(i++)` loop of `parseCommand`.  The arguments after the fuel are
the locals `i`, `j`, `sign`, `ch`, `temp` and the memory behind `returnValues`
(index to stored `int`).  `command` is the memory behind the `char*`, read with
`getD` (a byte outside the list reads as NUL).

`some (b, rv)` is a `return b` with `rv` the final memory; `none` means that the
loop condition became false (the byte-sized `i` wrapped to 0) and control left
the function without reaching a `return` statement.  The byte index visits at
most 255 values, so the fuel 256 passed by `parseCommand` never runs out. -/
def parseLoop (command : List Nat) (returnNumber : Nat) :
    Nat → Nat → Nat → Nat → Nat → Int → (Nat → Int) → Option (Bool × (Nat → Int))
  | 0, _, _, _, _, _, _ => none
  | fuel + 1, i, j, sign, ch, temp, returnValues =>
    -- `while(i++)`: test the old value, then increment the byte
    if i = 0 then none
    else
      let i1 := (i + 1) % 256
      let c := command.getD i1 0
      if c = 0 ∨ c = 44 then
        -- case '\0': case ',':
        if ch ≠ 0 then
          let rv1 := Function.update returnValues j (if sign ≠ 0 then wrap16 (-temp) else temp)
          let j1 := (j + 1) % 256
          if j1 = returnNumber then some (true, rv1)
          else if c = 0 then some (false, rv1)
          else parseLoop command returnNumber fuel i1 j1 0 0 0 rv1
        else some (false, returnValues)
      else if c = 45 then
        -- case '-':
        if j = returnNumber then some (true, returnValues)
        else parseLoop command returnNumber fuel i1 j 1 ch temp returnValues
      else
        -- default: `number` is a byte, so `number < 0` never holds
        let number := (c + 256 - 48) % 256
        if number > 9 then some (false, returnValues)
        else if j = returnNumber then some (true, returnValues)
        else
          parseLoop command returnNumber fuel i1 j sign ((ch + 1) % 256)
            (wrap16 (temp * 10 + (number : Int))) returnValues

/-- The function `parseCommand(command, returnValues, returnNumber)`: the locals
start as `i = 1, j = 0, sign = 0, ch = 0, temp = 0`. -/
def parseCommand (command : List Nat) (returnValues : Nat → Int) (returnNumber : Nat) :
    Option (Bool × (Nat → Int)) :=
  parseLoop command returnNumber 256 1 0 0 0 0 returnValues

/-- The observable outcome of a call: the returned flag together with
`returnValues[0..n-1]`. -/
def outcome (n : Nat) (r : Option (Bool × (Nat → Int))) : Option (Bool × List Int) :=
  r.map fun p => (p.1, (List.range n).map p.2)

/-! ## Device state -/

/-- The globals of the sketch (`serialData`, `com`, `error`, `timerCounter`,
`connected`), the LED pin and the timer-1 / port-D registers that `setSpeed`
writes.  Byte-sized cells hold values below 256. -/
structure State where
  serialData : List Nat
  com : Nat
  error : Nat
  timerCounter : Nat
  connected : Bool
  led : Bool
  DDRD : Nat
  PORTD : Nat
  TCCR1A : Nat
  TCCR1B : Nat
  OCR1AH : Nat
  OCR1AL : Nat
  OCR1BH : Nat
  OCR1BL : Nat

/-- The state after power-on: zero-initialised globals and registers at their
reset value 0. -/
def powerOn : State :=
  { serialData := List.replicate 32 0, com := 0, error := 0, timerCounter := 0,
    connected := false, led := false, DDRD := 0, PORTD := 0, TCCR1A := 0, TCCR1B := 0,
    OCR1AH := 0, OCR1AL := 0, OCR1BH := 0, OCR1BL := 0 }

/-- Modelled from the spec: the macro `COM1A0` of the AVR device header is not in
the source; it is the low bit of the pair that connects the left channel to the
PWM comparator, bit 6 of `TCCR1A` on the ATmega16/32. -/
def COM1A0 : Nat := 6

/-- Modelled from the spec: the macro `COM1A1` of the AVR device header is not in
the source; setting it enables the left channel's comparator output, bit 7 of
`TCCR1A` on the ATmega16/32. -/
def COM1A1 : Nat := 7

/-- Modelled from the spec: the macro `COM1B0` of the AVR device header is not in
the source; it is the low bit of the pair that connects the right channel to the
PWM comparator, bit 4 of `TCCR1A` on the ATmega16/32. -/
def COM1B0 : Nat := 4

/-- Modelled from the spec: the macro `COM1B1` of the AVR device header is not in
the source; setting it enables the right channel's comparator output, bit 5 of
`TCCR1A` on the ATmega16/32. -/
def COM1B1 : Nat := 5

/-- Modelled from the spec: the macro `PD4` of the AVR device header is not in the
source; it is the port-D pin of the right channel's PWM output (OC1B), bit 4. -/
def PD4 : Nat := 4

/-- Modelled from the spec: the macro `PD5` of the AVR device header is not in the
source; it is the port-D pin of the left channel's PWM output (OC1A), bit 5. -/
def PD5 : Nat := 5

/-- The C operator `~` on an `int` operand, as a 16-bit pattern. -/
def bitNot16 (x : Nat) : Nat := 65535 - x % 65536

/-- The byte stored by `reg &= ~mask`. -/
def clearBits (reg mask : Nat) : Nat := (reg &&& bitNot16 mask) % 256

/-- The byte stored by `reg |= mask`. -/
def setBits (reg mask : Nat) : Nat := (reg ||| mask) % 256

/-- The byte stored by `OCR1xH = v >> 8` for an `int` v (arithmetic shift). -/
def highByte (v : Int) : Nat := ((v / 256) % 256).toNat

/-- The byte stored by `OCR1xL = v & 0xff` for an `int` v. -/
def lowByte (v : Int) : Nat := (v % 256).toNat

/-! ## Duty translator (`setSpeed`, source lines 184-263) -/

/-- The "limit to maximum speed" step (lines 215-222 and 248-255) applied to the
`int` v: 1023 when `v > 100`, otherwise `(long) 1023*v/100` (a 32-bit product,
C division truncating toward zero) stored back into the 16-bit variable. -/
def limitSpeed (v : Int) : Int :=
  if v > 100 then 1023 else wrap16 (Int.tdiv (wrap32 (1023 * v)) 100)

/-- Lines 192-223: the left channel.  Returns the registers and the final value
of the variable `left`. -/
def leftChannel (s : State) (left : Int) : State × Int :=
  if left = 0 then
    ({ s with TCCR1A := clearBits s.TCCR1A (3 <<< COM1A0),
              PORTD := clearBits s.PORTD (1 <<< PD5) }, left)
  else
    let s1 := { s with TCCR1A := setBits s.TCCR1A (1 <<< COM1A1) }
    if left < 0 then
      ({ s1 with PORTD := setBits s1.PORTD (1 <<< 7) }, limitSpeed (wrap16 (-left)))
    else
      ({ s1 with PORTD := clearBits s1.PORTD (1 <<< 7) }, limitSpeed left)

/-- Lines 225-256: the right channel.  Returns the registers and the final value
of the variable `right`. -/
def rightChannel (s : State) (right : Int) : State × Int :=
  if right = 0 then
    ({ s with TCCR1A := clearBits s.TCCR1A (3 <<< COM1B0),
              PORTD := clearBits s.PORTD (1 <<< PD4) }, right)
  else
    let s1 := { s with TCCR1A := setBits s.TCCR1A (1 <<< COM1B1) }
    if right < 0 then
      ({ s1 with PORTD := setBits s1.PORTD (1 <<< 6) }, limitSpeed (wrap16 (-right)))
    else
      ({ s1 with PORTD := clearBits s1.PORTD (1 <<< 6) }, limitSpeed right)

/-- The function `setSpeed(left, right)`. -/
def setSpeed (s : State) (left right : Int) : State :=
  let s0 := { s with DDRD := setBits s.DDRD 0xf0, TCCR1A := 0x03, TCCR1B := 0x01 }
  let l := leftChannel s0 left
  let r := rightChannel l.1 right
  { r.1 with OCR1AH := highByte l.2, OCR1AL := lowByte l.2,
             OCR1BH := highByte r.2, OCR1BL := lowByte r.2 }

/-- The duty committed to the left channel: the compare register `OCR1A` read
back from its two halves. -/
def dutyLeft (s : State) : Nat := s.OCR1AH * 256 + s.OCR1AL

/-- The duty committed to the right channel: the compare register `OCR1B` read
back from its two halves. -/
def dutyRight (s : State) : Nat := s.OCR1BH * 256 + s.OCR1BL

/-- The left direction bit (port D bit 7): `true` is reverse. -/
def reverseLeft (s : State) : Bool := s.PORTD.testBit 7

/-- The right direction bit (port D bit 6): `true` is reverse. -/
def reverseRight (s : State) : Bool := s.PORTD.testBit 6

/-- Whether the left comparator output is connected (`COM1A1` set). -/
def comparatorLeft (s : State) : Bool := s.TCCR1A.testBit COM1A1

/-- Whether the right comparator output is connected (`COM1B1` set). -/
def comparatorRight (s : State) : Bool := s.TCCR1A.testBit COM1B1

/-- The function `reset()` (lines 97-101). -/
def reset (s : State) : State :=
  setSpeed { s with connected := false } 0 0

/-! ## Watchdog (`ISR(TIMER2_OVF_vect)`, source lines 163-181) -/

/-- One invocation of the timer-2 overflow handler.  `timerCounter++ < 1220`
compares the old byte value and stores the incremented byte. -/
def TIMER2_OVF (s : State) : State :=
  let old := s.timerCounter
  let s1 := { s with timerCounter := (old + 1) % 256 }
  if old < 1220 then s1
  else
    let s2 := if s1.com = 0 then reset { s1 with led := false } else s1
    { s2 with com := 0, timerCounter := 0 }

/-! ## Main loop (`loop`, source lines 34-95) -/

/-- What the environment supplies to one pass of `loop` that finds data
available: the bytes `readBytesUntil` stores (at most 31 are taken), the
indeterminate initial contents of the local result variables, the number of
times the streaming loop finds no further byte available, and the samples
`analogRead` delivers (by pin and sample number). -/
structure Input where
  line : List Nat
  locals : Nat → Int
  polls : Nat
  adc : Int → Nat → Int

/-- One line written by `Serial1.println`: a text, or a sample of a pin. -/
inductive Out where
  | text (s : String)
  | sample (pin : Int) (value : Int)
  deriving DecidableEq, Repr

/-- The buffer after `Serial1.readBytesUntil(10, serialData, 31)`: the received
bytes overwrite the start of the buffer. -/
def readBytesUntil (serialData line : List Nat) : List Nat :=
  line.take 31 ++ serialData.drop (line.take 31).length

/-- Lines 38-43 of `loop()`: the receive step.  The LED goes on, `connected`
becomes true, the activity marker `com` takes the value of `timerCounter`, and
the line is read into the buffer. -/
def receive (s : State) (line : List Nat) : State :=
  let s1 := { s with led := true, connected := true, com := s.timerCounter }
  { s1 with serialData := readBytesUntil s1.serialData line }

/-- Lines 44-90 of `loop()`: the `switch` on the opcode `serialData[0]`.  A call
of `parseCommand` that leaves the function without a `return` is taken to the
error branch; it cannot occur when the buffer holds a NUL at an index up to 255. -/
def dispatch (s : State) (inp : Input) : State × List Out :=
  let op := s.serialData.getD 0 0
  if op = 0 then (s, [Out.text "0"])
  else if op = 97 then
    -- case 'a'
    match parseCommand s.serialData inp.locals 1 with
    | some (true, rv) =>
      if rv 0 ≥ 0 ∧ rv 0 ≤ 7 then
        (s, if s.connected then
              (List.range inp.polls).map fun k => Out.sample (rv 0) (inp.adc (rv 0) k)
            else [])
      else (s, [Out.text "Error while setting ADC pin"])
    | _ => (s, [Out.text "Error while setting ADC pin"])
  else if op = 115 then
    -- case 's'
    match parseCommand s.serialData inp.locals 2 with
    | some (true, rv) => (setSpeed s (rv 0) (rv 1), [Out.text "New speed set"])
    | _ => (s, [Out.text "Error while setting new speed"])
  else if op = 105 then (s, [Out.text "ALFRED 1.0"])
  else if op = 114 then (reset s, [Out.text "Robot reset"])
  else (s, [Out.text "Command not recognised"])

/-- One pass of `loop()`; `none` is a pass that finds no data available.  After
the dispatch the buffer is cleared (`memset`, line 93). -/
def loop (s : State) : Option Input → State × List Out
  | none => (s, [])
  | some inp =>
    let r := dispatch (receive s inp.line) inp
    ({ r.1 with serialData := List.replicate 32 0 }, r.2)

/-- The events of the atomic-step model: a pass of the main loop that receives
a line, or an invocation of the overflow handler. -/
inductive Event where
  | line (inp : Input)
  | tick

/-- The state after one event. -/
def step (s : State) : Event → State
  | Event.line inp => (loop s (some inp)).1
  | Event.tick => TIMER2_OVF s

/-- The state after a sequence of events, oldest first. -/
def run (s : State) (es : List Event) : State := es.foldl step s

/-- The state after `n` consecutive invocations of the overflow handler. -/
def ticks : Nat → State → State
  | 0, s => s
  | n + 1, s => ticks n (TIMER2_OVF s)

/-- The bytes of a text. -/
def bytes (t : String) : List Nat := t.toList.map Char.toNat

/-- The bytes of a text as a NUL-terminated `char` array. -/
def cstring (t : String) : List Nat := bytes t ++ [0]

/-- The duty the specification's rounding rule asks for at magnitude `m`:
`1023 * m / 100` rounded to the nearest integer. -/
def roundedDuty (m : Nat) : Nat := (2 * 1023 * m + 100) / 200

/-- An input of the main loop that delivers the bytes of the text `t`, with
zeroed locals, a further byte available at once and all samples 0. -/
def lineInput (t : String) : Input :=
  { line := bytes t, locals := fun _ => 0, polls := 0, adc := fun _ _ => 0 }

/-- A connected state with no recorded activity and both duties at 1023. -/
def cruising : State :=
  { powerOn with connected := true, OCR1AH := 3, OCR1AL := 255, OCR1BH := 3, OCR1BL := 255 }

/-! ## Auxiliary definitions for the statements and proofs -/

/-- The final value of the variable `left` (or `right`) as a function of the
argument: lines 192-222 without the register writes. -/
def speedValue (v : Int) : Int :=
  if v = 0 then 0 else limitSpeed (if v < 0 then wrap16 (-v) else v)

/-- Port D after the left channel's branch, from its value before. -/
def portAfterLeft (p : Nat) (v : Int) : Nat :=
  if v = 0 then clearBits p (1 <<< PD5)
  else if v < 0 then setBits p (1 <<< 7) else clearBits p (1 <<< 7)

/-- Port D after the right channel's branch, from its value before. -/
def portAfterRight (p : Nat) (v : Int) : Nat :=
  if v = 0 then clearBits p (1 <<< PD4)
  else if v < 0 then setBits p (1 <<< 6) else clearBits p (1 <<< 6)

/-- The invariant of the atomic-step model: a disconnected state has both
duties 0. -/
def Stopped (s : State) : Prop :=
  s.connected = false → dutyLeft s = 0 ∧ dutyRight s = 0

/-- The value of `temp` after the scanner has passed over the bytes of a field:
a digit folds in (16-bit arithmetic), a hyphen leaves it unchanged. -/
def accum (temp : Int) : List Nat → Int
  | [] => temp
  | b :: f => accum (if b = 45 then temp else wrap16 (temp * 10 + ((b - 48 : Nat) : Int))) f

/-- The number of bytes of a field other than hyphens. -/
def digitCount : List Nat → Nat
  | [] => 0
  | b :: f => (if b = 45 then 0 else 1) + digitCount f

/-- The value the scanner stores for a field: the accumulated `temp`, negated
(in 16-bit arithmetic) when the field holds a hyphen. -/
def fieldValue (f : List Nat) : Int :=
  if 45 ∈ f then wrap16 (-(accum 0 f)) else accum 0 f

/-- A field the scanner passes over: only digits and hyphens, at least one digit. -/
def Scannable (f : List Nat) : Prop :=
  (∀ b ∈ f, b = 45 ∨ (48 ≤ b ∧ b ≤ 57)) ∧ 0 < digitCount f

/-- Fields each followed by a comma. -/
def commaTerminated : List (List Nat) → List Nat
  | [] => []
  | f :: fs => f ++ 44 :: commaTerminated fs

/-- Fields separated by commas. -/
def commaSeparated : List (List Nat) → List Nat
  | [] => []
  | [f] => f
  | f :: g :: fs => f ++ 44 :: commaSeparated (g :: fs)

/-- The memory behind `returnValues` after the values of the fields `fs` have
been stored from index `j` on. -/
def storeFields (rv : Nat → Int) (j : Nat) : List (List Nat) → Nat → Int
  | [] => rv
  | f :: fs => storeFields (Function.update rv j (fieldValue f)) (j + 1) fs

/-- The decimal value of a digit string read after an accumulated value `a`. -/
def decimalFrom (a : Nat) : List Nat → Nat
  | [] => a
  | b :: ds => decimalFrom (10 * a + (b - 48)) ds

/-- The decimal value of a digit string (leading zeros allowed). -/
def decimal (ds : List Nat) : Nat := decimalFrom 0 ds

/-- A non-empty string of the digit bytes 48..57. -/
def Digits (ds : List Nat) : Prop := ds ≠ [] ∧ ∀ b ∈ ds, 48 ≤ b ∧ b ≤ 57

instance (ds : List Nat) : Decidable (Digits ds) := by
  unfold Digits
  infer_instance

/-- The field written for the integer `v` with the digit string `ds` of its
magnitude: the digits, preceded by one hyphen when `v` is negative. -/
def encode (v : Int) (ds : List Nat) : List Nat := if v < 0 then 45 :: ds else ds

/-- The NUL-terminated line `c x d(v1) , d(v2) , ... , d(vN)` for the integers
and digit strings listed in `items`. -/
def decimalLine (c x : Nat) (items : List (Int × List Nat)) : List Nat :=
  c :: x :: commaSeparated (items.map fun it => encode it.1 it.2) ++ [0]

/-- A well-formed signed decimal field: digits, optionally after one hyphen. -/
def WellFormed (f : List Nat) : Prop := Digits f ∨ (f.head? = some 45 ∧ Digits f.tail)

instance (f : List Nat) : Decidable (WellFormed f) := by
  unfold WellFormed
  infer_instance

instance (f : List Nat) : Decidable (Scannable f) := by
  unfold Scannable
  infer_instance

/-- A byte that is neither NUL, nor a comma, nor a hyphen, nor a decimal digit. -/
def InvalidByte (b : Nat) : Prop :=
  b < 256 ∧ b ≠ 0 ∧ b ≠ 44 ∧ b ≠ 45 ∧ ¬ (48 ≤ b ∧ b ≤ 57)

instance (b : Nat) : Decidable (InvalidByte b) := by
  unfold InvalidByte
  infer_instance

/-- The bytes of a field with all hyphens deleted. -/
def digitsOf : List Nat → List Nat
  | [] => []
  | b :: f => if b = 45 then digitsOf f else b :: digitsOf f

/-- The value the specification gives a field of digits and hyphens: the decimal
value of its digits with the hyphens deleted, negated exactly when the field
holds a hyphen. -/
def signedDecimal (f : List Nat) : Int :=
  if 45 ∈ f then -((decimal (digitsOf f) : Nat) : Int) else ((decimal (digitsOf f) : Nat) : Int)

/-- Register `TCCR1A` after the left channel's branch, from its value before. -/
def tccrAfterLeft (t : Nat) (v : Int) : Nat :=
  if v = 0 then clearBits t (3 <<< COM1A0) else setBits t (1 <<< COM1A1)

/-- Register `TCCR1A` after the right channel's branch, from its value before. -/
def tccrAfterRight (t : Nat) (v : Int) : Nat :=
  if v = 0 then clearBits t (3 <<< COM1B0) else setBits t (1 <<< COM1B1)

/-- The PWM state of both channels: the two committed duties, the two direction
bits and the two comparator enables. -/
def pwm (s : State) : Nat × Nat × Bool × Bool × Bool × Bool :=
  (dutyLeft s, dutyRight s, reverseLeft s, reverseRight s, comparatorLeft s, comparatorRight s)

/-- An input of the main loop that delivers the bytes of the text `t`, with
zeroed locals, two polls of the streaming loop before a further byte arrives,
and the sample `100 * pin + k` as the `k`-th reading of a pin. -/
def probeInput (t : String) : Input :=
  { line := bytes t, locals := fun _ => 0, polls := 2, adc := fun pin k => 100 * pin + k }

/-- The loop of `parseCommand` with a log: the same run as `parseLoop`, which in
addition records the index of every read of the buffer (`reads`) and of every
write to `returnValues` (`writes`), latest first.  The three reads of
`*(command + i)` in one pass of the loop use the same index and are logged
once. -/
def parseLoopLog (command : List Nat) (returnNumber : Nat) :
    Nat → Nat → Nat → Nat → Nat → Int → (Nat → Int) → List Nat → List Nat →
      Option (Bool × (Nat → Int)) × List Nat × List Nat
  | 0, _, _, _, _, _, _, reads, writes => (none, reads, writes)
  | fuel + 1, i, j, sign, ch, temp, returnValues, reads, writes =>
    if i = 0 then (none, reads, writes)
    else
      let i1 := (i + 1) % 256
      let c := command.getD i1 0
      if c = 0 ∨ c = 44 then
        if ch ≠ 0 then
          let rv1 := Function.update returnValues j (if sign ≠ 0 then wrap16 (-temp) else temp)
          let j1 := (j + 1) % 256
          if j1 = returnNumber then (some (true, rv1), i1 :: reads, j :: writes)
          else if c = 0 then (some (false, rv1), i1 :: reads, j :: writes)
          else parseLoopLog command returnNumber fuel i1 j1 0 0 0 rv1 (i1 :: reads) (j :: writes)
        else (some (false, returnValues), i1 :: reads, writes)
      else if c = 45 then
        if j = returnNumber then (some (true, returnValues), i1 :: reads, writes)
        else parseLoopLog command returnNumber fuel i1 j 1 ch temp returnValues (i1 :: reads) writes
      else
        let number := (c + 256 - 48) % 256
        if number > 9 then (some (false, returnValues), i1 :: reads, writes)
        else if j = returnNumber then (some (true, returnValues), i1 :: reads, writes)
        else
          parseLoopLog command returnNumber fuel i1 j sign ((ch + 1) % 256)
            (wrap16 (temp * 10 + (number : Int))) returnValues (i1 :: reads) writes

/-- The call `parseCommand(command, returnValues, returnNumber)` with the log of
its buffer reads and its writes to `returnValues`. -/
def parseCommandLog (command : List Nat) (returnValues : Nat → Int) (returnNumber : Nat) :
    Option (Bool × (Nat → Int)) × List Nat × List Nat :=
  parseLoopLog command returnNumber 256 1 0 0 0 0 returnValues [] []

/-! ## Lemmas on the duty translator -/

theorem testBit_setBits (reg m k : Nat) :
    (setBits reg m).testBit k = (decide (k < 8) && (reg.testBit k || m.testBit k)) := by
  unfold setBits
  rw [show (256 : Nat) = 2 ^ 8 by norm_num, Nat.testBit_mod_two_pow, Nat.testBit_or]

theorem testBit_clearBits (reg m k : Nat) :
    (clearBits reg m).testBit k
      = (decide (k < 8) && (reg.testBit k && (bitNot16 m).testBit k)) := by
  unfold clearBits
  rw [show (256 : Nat) = 2 ^ 8 by norm_num, Nat.testBit_mod_two_pow, Nat.testBit_and]

theorem leftChannel_snd (s : State) (v : Int) : (leftChannel s v).2 = speedValue v := by
  unfold leftChannel speedValue
  split
  · simp_all
  · split <;> rfl

theorem rightChannel_snd (s : State) (v : Int) : (rightChannel s v).2 = speedValue v := by
  unfold rightChannel speedValue
  split
  · simp_all
  · split <;> rfl

theorem dutyLeft_setSpeed (s : State) (l r : Int) :
    dutyLeft (setSpeed s l r) = highByte (speedValue l) * 256 + lowByte (speedValue l) := by
  simp [dutyLeft, setSpeed, leftChannel_snd]

theorem dutyRight_setSpeed (s : State) (l r : Int) :
    dutyRight (setSpeed s l r) = highByte (speedValue r) * 256 + lowByte (speedValue r) := by
  simp [dutyRight, setSpeed, rightChannel_snd]

theorem connected_leftChannel (s : State) (v : Int) :
    (leftChannel s v).1.connected = s.connected := by
  unfold leftChannel
  split
  · rfl
  · split <;> rfl

theorem connected_rightChannel (s : State) (v : Int) :
    (rightChannel s v).1.connected = s.connected := by
  unfold rightChannel
  split
  · rfl
  · split <;> rfl

theorem connected_setSpeed (s : State) (l r : Int) :
    (setSpeed s l r).connected = s.connected := by
  simp [setSpeed, connected_leftChannel, connected_rightChannel]

theorem com_leftChannel (s : State) (v : Int) : (leftChannel s v).1.com = s.com := by
  unfold leftChannel
  split
  · rfl
  · split <;> rfl

theorem com_rightChannel (s : State) (v : Int) : (rightChannel s v).1.com = s.com := by
  unfold rightChannel
  split
  · rfl
  · split <;> rfl

theorem com_setSpeed (s : State) (l r : Int) : (setSpeed s l r).com = s.com := by
  simp [setSpeed, com_leftChannel, com_rightChannel]

theorem PORTD_leftChannel (s : State) (v : Int) :
    (leftChannel s v).1.PORTD = portAfterLeft s.PORTD v := by
  unfold leftChannel portAfterLeft
  split
  · rfl
  · split <;> rfl

theorem PORTD_rightChannel (s : State) (v : Int) :
    (rightChannel s v).1.PORTD = portAfterRight s.PORTD v := by
  unfold rightChannel portAfterRight
  split
  · rfl
  · split <;> rfl

theorem PORTD_setSpeed (s : State) (l r : Int) :
    (setSpeed s l r).PORTD = portAfterRight (portAfterLeft s.PORTD l) r := by
  simp [setSpeed, PORTD_rightChannel, PORTD_leftChannel]

theorem testBit_seven_portAfterRight (p : Nat) (v : Int) :
    (portAfterRight p v).testBit 7 = p.testBit 7 := by
  have e1 : (bitNot16 16).testBit 7 = true := by decide
  have e2 : (bitNot16 64).testBit 7 = true := by decide
  have e3 : Nat.testBit 64 7 = false := by decide
  unfold portAfterRight
  split
  · simp [testBit_clearBits, PD4, e1]
  · split <;> simp [testBit_setBits, testBit_clearBits, e2, e3]

theorem reverseLeft_setSpeed (s : State) (l r : Int) (h : l ≠ 0) :
    reverseLeft (setSpeed s l r) = decide (l < 0) := by
  have e1 : (bitNot16 128).testBit 7 = false := by decide
  have e2 : Nat.testBit 128 7 = true := by decide
  unfold reverseLeft
  rw [PORTD_setSpeed, testBit_seven_portAfterRight]
  unfold portAfterLeft
  simp only [h, if_false]
  split <;> simp [testBit_setBits, testBit_clearBits, e1, e2, *]

theorem reverseRight_setSpeed (s : State) (l r : Int) (h : r ≠ 0) :
    reverseRight (setSpeed s l r) = decide (r < 0) := by
  have e1 : (bitNot16 64).testBit 6 = false := by decide
  have e2 : Nat.testBit 64 6 = true := by decide
  unfold reverseRight
  rw [PORTD_setSpeed]
  unfold portAfterRight
  simp only [h, if_false]
  split <;> simp [testBit_setBits, testBit_clearBits, e1, e2, *]

theorem limitSpeed_of_nonneg (m : Int) (h0 : 0 ≤ m) (h1 : m ≤ 32767) :
    limitSpeed m = if m > 100 then 1023 else 1023 * m / 100 := by
  unfold limitSpeed
  split
  · rfl
  · have hw : wrap32 (1023 * m) = 1023 * m := by unfold wrap32; omega
    rw [hw, Int.tdiv_eq_ediv (by omega) (by omega)]
    unfold wrap16; omega

theorem speedValue_of_range (v : Int) (h0 : -32767 ≤ v) (h1 : v ≤ 32767) :
    speedValue v = if v.natAbs > 100 then 1023 else ((1023 * v.natAbs / 100 : Nat) : Int) := by
  unfold speedValue
  split
  · subst v; simp
  · split
    · have hw : wrap16 (-v) = -v := by unfold wrap16; omega
      rw [hw, limitSpeed_of_nonneg _ (by omega) (by omega)]
      split <;> split <;> omega
    · rw [limitSpeed_of_nonneg _ (by omega) (by omega)]
      split <;> split <;> omega

theorem register_of_range (v : Int) (h0 : 0 ≤ v) (h1 : v ≤ 65535) :
    highByte v * 256 + lowByte v = v.toNat := by
  unfold highByte lowByte
  omega

/-- For every speed other than the most negative `int`, the value committed to a
compare register is 1023 above magnitude 100 and the truncated quotient
`1023 * m / 100` otherwise (0 for speed 0). -/
theorem committed_of_range (v : Int) (h0 : -32767 ≤ v) (h1 : v ≤ 32767) :
    highByte (speedValue v) * 256 + lowByte (speedValue v)
      = if v.natAbs > 100 then 1023 else 1023 * v.natAbs / 100 := by
  rw [speedValue_of_range v h0 h1]
  split
  · decide
  · rw [register_of_range _ (by omega) (by omega)]
    omega

theorem dutyLeft_reset (s : State) : dutyLeft (reset s) = 0 := by
  unfold reset
  rw [dutyLeft_setSpeed]
  decide

theorem dutyRight_reset (s : State) : dutyRight (reset s) = 0 := by
  unfold reset
  rw [dutyRight_setSpeed]
  decide

theorem connected_reset (s : State) : (reset s).connected = false := by
  unfold reset
  rw [connected_setSpeed]

/-! ## Lemmas on the watchdog and the main loop -/

theorem TIMER2_OVF_of_byte (s : State) (h : s.timerCounter < 256) :
    TIMER2_OVF s = { s with timerCounter := (s.timerCounter + 1) % 256 } := by
  unfold TIMER2_OVF
  have h1 : s.timerCounter < 1220 := by omega
  simp [h1]

theorem com_receive (s : State) (line : List Nat) : (receive s line).com = s.timerCounter := by
  simp [receive]

theorem connected_receive (s : State) (line : List Nat) :
    (receive s line).connected = true := by
  simp [receive]

/-- A dispatch that starts connected ends connected, or ends with both duties 0. -/
theorem dispatch_connected_or_stopped (s : State) (inp : Input) (h : s.connected = true) :
    (dispatch s inp).1.connected = true ∨
      (dutyLeft (dispatch s inp).1 = 0 ∧ dutyRight (dispatch s inp).1 = 0) := by
  unfold dispatch
  simp only
  split
  · exact Or.inl h
  · split
    · split
      · split <;> exact Or.inl h
      · exact Or.inl h
    · split
      · split
        · left; rw [connected_setSpeed]; exact h
        · exact Or.inl h
      · split
        · exact Or.inl h
        · split
          · exact Or.inr ⟨dutyLeft_reset s, dutyRight_reset s⟩
          · exact Or.inl h

theorem Stopped_powerOn : Stopped powerOn := by
  intro _
  exact ⟨by decide, by decide⟩

theorem Stopped_loop (s : State) (inp : Input) : Stopped (loop s (some inp)).1 := by
  intro hc
  have h := dispatch_connected_or_stopped (receive s inp.line) inp (connected_receive s inp.line)
  simp only [loop] at hc ⊢
  rcases h with h | h
  · simp [h] at hc
  · exact h

theorem Stopped_TIMER2_OVF (s : State) (hs : Stopped s) : Stopped (TIMER2_OVF s) := by
  unfold TIMER2_OVF
  simp only
  split
  · exact hs
  · split
    · intro _
      have hl := dutyLeft_reset { s with timerCounter := (s.timerCounter + 1) % 256, led := false }
      have hr := dutyRight_reset { s with timerCounter := (s.timerCounter + 1) % 256, led := false }
      exact ⟨hl, hr⟩
    · exact hs

theorem Stopped_step (s : State) (e : Event) (hs : Stopped s) : Stopped (step s e) := by
  cases e with
  | line inp => exact Stopped_loop s inp
  | tick => exact Stopped_TIMER2_OVF s hs

theorem Stopped_run (es : List Event) (s : State) (hs : Stopped s) : Stopped (run s es) := by
  induction es generalizing s with
  | nil => exact hs
  | cons e es ih => exact ih (step s e) (Stopped_step s e hs)

/-! ## Lemmas on the parser -/

theorem getD_of_drop (l : List Nat) (n b : Nat) (t : List Nat) (h : l.drop n = b :: t) :
    l.getD n 0 = b := by
  induction n generalizing l with
  | zero => cases l with
    | nil => simp at h
    | cons a l => simp at h; simp [h.1]
  | succ n ih => cases l with
    | nil => simp at h
    | cons a l => simp at h; simpa using ih l h

theorem drop_succ_of_drop (l : List Nat) (n b : Nat) (t : List Nat) (h : l.drop n = b :: t) :
    l.drop (n + 1) = t := by
  induction n generalizing l with
  | zero => cases l with
    | nil => simp at h
    | cons a l => simp at h; simp [h.2]
  | succ n ih => cases l with
    | nil => simp at h
    | cons a l => simp at h; simpa using ih l h

theorem parseLoop_digit (command : List Nat) (N fuel i j sign ch : Nat) (temp : Int)
    (rv : Nat → Int) (b : Nat) (hb : command.getD (i + 1) 0 = b) (hd : 48 ≤ b ∧ b ≤ 57)
    (hi : 0 < i) (hi2 : i + 1 ≤ 255) (hch : ch + 1 ≤ 255) (hj : j ≠ N) :
    parseLoop command N (fuel + 1) i j sign ch temp rv
      = parseLoop command N fuel (i + 1) j sign (ch + 1)
          (wrap16 (temp * 10 + ((b - 48 : Nat) : Int))) rv := by
  have e1 : (i + 1) % 256 = i + 1 := Nat.mod_eq_of_lt (by omega)
  have e2 : (ch + 1) % 256 = ch + 1 := Nat.mod_eq_of_lt (by omega)
  have e3 : (b + 256 - 48) % 256 = b - 48 := by omega
  have e4 : ¬ (b = 0 ∨ b = 44) := by omega
  have e5 : b ≠ 45 := by omega
  have e6 : ¬ (b - 48 > 9) := by omega
  have e7 : i ≠ 0 := by omega
  rw [parseLoop]
  simp only [e1, hb, e2, e3, e4, e5, e6, e7, hj, if_false]

theorem parseLoop_hyphen (command : List Nat) (N fuel i j sign ch : Nat) (temp : Int)
    (rv : Nat → Int) (hb : command.getD (i + 1) 0 = 45)
    (hi : 0 < i) (hi2 : i + 1 ≤ 255) (hj : j ≠ N) :
    parseLoop command N (fuel + 1) i j sign ch temp rv
      = parseLoop command N fuel (i + 1) j 1 ch temp rv := by
  have e1 : (i + 1) % 256 = i + 1 := Nat.mod_eq_of_lt (by omega)
  have e7 : i ≠ 0 := by omega
  have e4 : ¬ ((45 : Nat) = 0 ∨ (45 : Nat) = 44) := by decide
  rw [parseLoop]
  simp only [e1, hb, e7, hj, e4, if_false, if_true]

theorem parseLoop_terminator (command : List Nat) (N fuel i j sign ch : Nat) (temp : Int)
    (rv : Nat → Int) (t : Nat) (hb : command.getD (i + 1) 0 = t) (ht : t = 0 ∨ t = 44)
    (hi : 0 < i) (hi2 : i + 1 ≤ 255) (hch : ch ≠ 0) (hj : j + 1 ≤ 255) :
    parseLoop command N (fuel + 1) i j sign ch temp rv
      = if j + 1 = N then
          some (true, Function.update rv j (if sign ≠ 0 then wrap16 (-temp) else temp))
        else if t = 0 then
          some (false, Function.update rv j (if sign ≠ 0 then wrap16 (-temp) else temp))
        else
          parseLoop command N fuel (i + 1) (j + 1) 0 0 0
            (Function.update rv j (if sign ≠ 0 then wrap16 (-temp) else temp)) := by
  have e1 : (i + 1) % 256 = i + 1 := Nat.mod_eq_of_lt (by omega)
  have e2 : (j + 1) % 256 = j + 1 := Nat.mod_eq_of_lt (by omega)
  have e7 : i ≠ 0 := by omega
  rw [parseLoop]
  simp only [e1, hb, e2, e7, ht, hch, if_false, if_true, ne_eq, not_false_eq_true]

theorem parseLoop_empty (command : List Nat) (N fuel i j sign : Nat) (temp : Int)
    (rv : Nat → Int) (t : Nat) (hb : command.getD (i + 1) 0 = t) (ht : t = 0 ∨ t = 44)
    (hi : 0 < i) (hi2 : i + 1 ≤ 255) :
    parseLoop command N (fuel + 1) i j sign 0 temp rv = some (false, rv) := by
  have e1 : (i + 1) % 256 = i + 1 := Nat.mod_eq_of_lt (by omega)
  have e7 : i ≠ 0 := by omega
  rw [parseLoop]
  simp only [e1, hb, e7, ht, if_false, if_true, ne_eq, not_true_eq_false]


/-- Fuel beyond what the byte index can consume changes nothing: from index `i`
the loop runs at most `257 - i` times. -/
theorem parseLoop_fuel (command : List Nat) (N extra : Nat) :
    ∀ (fuel i j sign ch : Nat) (temp : Int) (rv : Nat → Int),
      i < 256 → (i = 0 ∨ 257 ≤ fuel + i) →
      parseLoop command N (fuel + extra) i j sign ch temp rv
        = parseLoop command N fuel i j sign ch temp rv := by
  intro fuel
  induction fuel with
  | zero =>
    intro i j sign ch temp rv hi h0
    have hz : i = 0 := by omega
    subst hz
    cases extra with
    | zero => rfl
    | succ e =>
      rw [show 0 + (e + 1) = (0 + e) + 1 by omega, parseLoop, parseLoop]
      simp
  | succ f ih =>
    intro i j sign ch temp rv hi h0
    rw [show f + 1 + extra = (f + extra) + 1 by omega, parseLoop, parseLoop]
    by_cases hz : i = 0
    · simp only [hz, if_true]
    · have hlt : (i + 1) % 256 < 256 := Nat.mod_lt _ (by decide)
      have hor : (i + 1) % 256 = 0 ∨ 257 ≤ f + (i + 1) % 256 := by omega
      have ih1 : ∀ (j sign ch : Nat) (temp : Int) (rv : Nat → Int),
          parseLoop command N (f + extra) ((i + 1) % 256) j sign ch temp rv
            = parseLoop command N f ((i + 1) % 256) j sign ch temp rv :=
        fun j sign ch temp rv => ih _ j sign ch temp rv hlt hor
      simp only [ih1]

/-- The fuel 256 of `parseCommand` is never used up: any larger fuel gives the
same result, so `none` always stands for leaving the loop without a `return`. -/
theorem parseCommand_fuel (command : List Nat) (rv : Nat → Int) (N extra : Nat) :
    parseLoop command N (256 + extra) 1 0 0 0 0 rv = parseCommand command rv N :=
  parseLoop_fuel command N extra 256 1 0 0 0 0 rv (by decide) (Or.inr (by decide))

theorem drop_of_drop_append (l f r : List Nat) (n : Nat) (h : l.drop n = f ++ r) :
    l.drop (n + f.length) = r := by
  induction f generalizing n with
  | nil => simpa using h
  | cons b f ih =>
    have h1 := drop_succ_of_drop l n b (f ++ r) (by simpa using h)
    have h2 := ih (n + 1) h1
    rw [List.length_cons, show n + (f.length + 1) = n + 1 + f.length by omega]
    exact h2

theorem parseLoop_scan (command : List Nat) (N : Nat) (rest : List Nat) :
    ∀ (f : List Nat) (fuel i j sign ch : Nat) (temp : Int) (rv : Nat → Int),
      (∀ b ∈ f, b = 45 ∨ (48 ≤ b ∧ b ≤ 57)) → command.drop (i + 1) = f ++ rest →
      0 < i → i + f.length ≤ 255 → ch + f.length ≤ 255 → j ≠ N →
      parseLoop command N (fuel + f.length) i j sign ch temp rv
        = parseLoop command N fuel (i + f.length) j (if 45 ∈ f then 1 else sign)
            (ch + digitCount f) (accum temp f) rv := by
  intro f
  induction f with
  | nil => intros; simp [digitCount, accum]
  | cons b f ih =>
    intro fuel i j sign ch temp rv hf hd hi hlen hch hj
    have hb := getD_of_drop command (i + 1) b (f ++ rest) (by simpa using hd)
    have hd1 := drop_succ_of_drop command (i + 1) b (f ++ rest) (by simpa using hd)
    have hf1 : ∀ c ∈ f, c = 45 ∨ (48 ≤ c ∧ c ≤ 57) := fun c hc => hf c (List.mem_cons_of_mem b hc)
    simp only [List.length_cons] at hlen hch
    rw [List.length_cons, show fuel + (f.length + 1) = fuel + f.length + 1 by omega,
      show i + (f.length + 1) = i + 1 + f.length by omega]
    rcases hf b (List.mem_cons_self b f) with h45 | hdig
    · subst h45
      rw [parseLoop_hyphen command N _ i j sign ch temp rv hb hi (by omega) hj,
        ih fuel (i + 1) j 1 ch temp rv hf1 hd1 (by omega) (by omega) (by omega) hj]
      simp [digitCount, accum]
    · have hne : b ≠ 45 := by omega
      rw [parseLoop_digit command N _ i j sign ch temp rv b hb hdig hi (by omega) (by omega) hj,
        ih fuel (i + 1) j sign (ch + 1) _ rv hf1 hd1 (by omega) (by omega) (by omega) hj]
      have hm : (45 ∈ b :: f) ↔ 45 ∈ f := by
        simp [List.mem_cons, Ne.symm hne]
      simp only [digitCount, accum, hne, if_false, hm]
      rw [show ch + 1 + digitCount f = ch + (1 + digitCount f) by omega]

theorem parseLoop_field (command : List Nat) (N : Nat) (rest f : List Nat) (t fuel i j : Nat)
    (rv : Nat → Int) (hf : Scannable f) (hd : command.drop (i + 1) = f ++ t :: rest)
    (ht : t = 0 ∨ t = 44) (hi : 0 < i) (hlen : i + f.length + 1 ≤ 255) (hj : j < i)
    (hN : j ≠ N) :
    parseLoop command N (fuel + (f.length + 1)) i j 0 0 0 rv
      = if j + 1 = N then some (true, Function.update rv j (fieldValue f))
        else if t = 0 then some (false, Function.update rv j (fieldValue f))
        else parseLoop command N fuel (i + f.length + 1) (j + 1) 0 0 0
              (Function.update rv j (fieldValue f)) := by
  have hd1 := drop_of_drop_append command f (t :: rest) (i + 1) hd
  have hb := getD_of_drop command (i + 1 + f.length) t rest hd1
  rw [show i + 1 + f.length = i + f.length + 1 by omega] at hb
  rw [show fuel + (f.length + 1) = fuel + 1 + f.length by omega,
    parseLoop_scan command N (t :: rest) f (fuel + 1) i j 0 0 0 rv hf.1 hd hi (by omega)
      (by omega) hN,
    parseLoop_terminator command N fuel (i + f.length) j _ _ _ rv t hb ht (by omega) (by omega)
      (by have := hf.2; omega) (by omega)]
  have hv : (if (if 45 ∈ f then 1 else 0) ≠ 0 then wrap16 (-accum 0 f) else accum 0 f)
      = fieldValue f := by
    unfold fieldValue
    by_cases h : 45 ∈ f <;> simp [h]
  rw [hv]

theorem parseLoop_terminated (command : List Nat) (N : Nat) (rest : List Nat) :
    ∀ (fs : List (List Nat)) (fuel i j : Nat) (rv : Nat → Int),
      (∀ f ∈ fs, Scannable f) → command.drop (i + 1) = commaTerminated fs ++ rest →
      0 < i → j < i → i + (commaTerminated fs).length ≤ 255 → j + fs.length < N →
      parseLoop command N (fuel + (commaTerminated fs).length) i j 0 0 0 rv
        = parseLoop command N fuel (i + (commaTerminated fs).length) (j + fs.length) 0 0 0
            (storeFields rv j fs) := by
  intro fs
  induction fs with
  | nil => intros; simp [commaTerminated, storeFields]
  | cons f fs ih =>
    intro fuel i j rv hfs hd hi hj hlen hN
    simp only [commaTerminated, List.length_append, List.length_cons] at hlen hd hN ⊢
    have hd0 : command.drop (i + 1) = f ++ 44 :: (commaTerminated fs ++ rest) := by
      simpa using hd
    have hd1 := drop_of_drop_append command f (44 :: (commaTerminated fs ++ rest)) (i + 1) hd0
    have hd2 := drop_succ_of_drop command _ 44 _ hd1
    rw [show fuel + (f.length + ((commaTerminated fs).length + 1))
        = fuel + (commaTerminated fs).length + (f.length + 1) by omega,
      parseLoop_field command N (commaTerminated fs ++ rest) f 44 _ i j rv
        (hfs f (List.mem_cons_self f fs)) hd0 (Or.inr rfl) hi (by omega) hj (by omega)]
    have h1 : ¬ (j + 1 = N) := by omega
    have h2 : ¬ ((44 : Nat) = 0) := by decide
    simp only [h1, h2, if_false]
    rw [ih fuel (i + f.length + 1) (j + 1) _
      (fun g hg => hfs g (List.mem_cons_of_mem f hg))
      (by rw [show i + f.length + 1 + 1 = i + 1 + f.length + 1 by omega]; exact hd2)
      (by omega) (by omega) (by omega) (by omega)]
    rw [show i + f.length + 1 + (commaTerminated fs).length
        = i + (f.length + ((commaTerminated fs).length + 1)) by omega,
      show j + 1 + fs.length = j + (fs.length + 1) by omega]
    rfl

theorem parseLoop_separated (command : List Nat) (N t : Nat) (rest : List Nat)
    (ht : t = 0 ∨ t = 44) :
    ∀ (fs : List (List Nat)) (fuel i j : Nat) (rv : Nat → Int),
      fs ≠ [] → (∀ f ∈ fs, Scannable f) →
      command.drop (i + 1) = commaSeparated fs ++ t :: rest →
      0 < i → j < i → i + (commaSeparated fs).length + 1 ≤ 255 → j + fs.length ≤ N →
      parseLoop command N (fuel + ((commaSeparated fs).length + 1)) i j 0 0 0 rv
        = if j + fs.length = N then some (true, storeFields rv j fs)
          else if t = 0 then some (false, storeFields rv j fs)
          else parseLoop command N fuel (i + (commaSeparated fs).length + 1) (j + fs.length)
                0 0 0 (storeFields rv j fs) := by
  intro fs
  induction fs with
  | nil => intro _ _ _ _ h; exact absurd rfl h
  | cons f fs ih =>
    intro fuel i j rv _ hfs hd hi hj hlen hN
    cases fs with
    | nil =>
      simp only [commaSeparated, List.length_cons, List.length_nil] at hlen hd hN ⊢
      rw [parseLoop_field command N rest f t fuel i j rv (hfs f (List.mem_cons_self f []))
        hd ht hi hlen hj (by omega)]
      rfl
    | cons g fs =>
      simp only [commaSeparated, List.length_append, List.length_cons] at hlen hd hN ⊢
      have hd0 : command.drop (i + 1)
          = f ++ 44 :: (commaSeparated (g :: fs) ++ t :: rest) := by
        simpa using hd
      have hd1 := drop_of_drop_append command f _ (i + 1) hd0
      have hd2 := drop_succ_of_drop command _ 44 _ hd1
      rw [show fuel + (f.length + ((commaSeparated (g :: fs)).length + 1) + 1)
          = fuel + ((commaSeparated (g :: fs)).length + 1) + (f.length + 1) by omega,
        parseLoop_field command N (commaSeparated (g :: fs) ++ t :: rest) f 44 _ i j rv
          (hfs f (List.mem_cons_self f _)) hd0 (Or.inr rfl) hi (by omega) hj (by omega)]
      have h1 : ¬ (j + 1 = N) := by omega
      have h2 : ¬ ((44 : Nat) = 0) := by decide
      simp only [h1, h2, if_false]
      rw [ih fuel (i + f.length + 1) (j + 1) _ (List.cons_ne_nil g fs)
        (fun g hg => hfs g (List.mem_cons_of_mem f hg))
        (by rw [show i + f.length + 1 + 1 = i + 1 + f.length + 1 by omega]; exact hd2)
        (by omega) (by omega) (by omega) (by simp only [List.length_cons]; omega)]
      simp only [List.length_cons, storeFields]
      rw [show i + f.length + 1 + (commaSeparated (g :: fs)).length + 1
          = i + (f.length + ((commaSeparated (g :: fs)).length + 1)) + 1 by omega,
        show j + 1 + (fs.length + 1) = j + (fs.length + 1 + 1) by omega]


theorem le_decimalFrom (ds : List Nat) : ∀ a : Nat, a ≤ decimalFrom a ds := by
  induction ds with
  | nil => intro a; exact Nat.le_refl a
  | cons b ds ih =>
    intro a
    have h := ih (10 * a + (b - 48))
    show a ≤ decimalFrom (10 * a + (b - 48)) ds
    exact Nat.le_trans (by omega) h

theorem accum_digits (ds : List Nat) :
    ∀ a : Nat, (∀ b ∈ ds, 48 ≤ b ∧ b ≤ 57) → decimalFrom a ds ≤ 32767 →
      accum (a : Int) ds = (decimalFrom a ds : Int) := by
  induction ds with
  | nil => intro a _ _; rfl
  | cons b ds ih =>
    intro a hd hle
    have hb := hd b (List.mem_cons_self b ds)
    have hne : b ≠ 45 := by omega
    have e : decimalFrom a (b :: ds) = decimalFrom (10 * a + (b - 48)) ds := rfl
    rw [e] at hle ⊢
    have h1 := le_decimalFrom ds (10 * a + (b - 48))
    have hw : wrap16 ((a : Int) * 10 + ((b - 48 : Nat) : Int))
        = ((10 * a + (b - 48) : Nat) : Int) := by
      unfold wrap16
      omega
    simp only [accum, hne, if_false, hw]
    exact ih _ (fun c hc => hd c (List.mem_cons_of_mem b hc)) hle

theorem digitCount_digits (ds : List Nat) (hd : ∀ b ∈ ds, 48 ≤ b ∧ b ≤ 57) :
    digitCount ds = ds.length := by
  induction ds with
  | nil => rfl
  | cons b ds ih =>
    have hb := hd b (List.mem_cons_self b ds)
    have hne : b ≠ 45 := by omega
    simp only [digitCount, hne, if_false, List.length_cons,
      ih (fun c hc => hd c (List.mem_cons_of_mem b hc))]
    omega

theorem not_mem_hyphen (ds : List Nat) (hd : ∀ b ∈ ds, 48 ≤ b ∧ b ≤ 57) : 45 ∉ ds := by
  intro h
  have := hd 45 h
  omega

theorem scannable_digits (ds : List Nat) (h : Digits ds) : Scannable ds := by
  refine ⟨fun b hb => Or.inr (h.2 b hb), ?_⟩
  rw [digitCount_digits ds h.2]
  exact List.length_pos.mpr h.1

theorem scannable_hyphen_digits (ds : List Nat) (h : Digits ds) : Scannable (45 :: ds) := by
  refine ⟨?_, ?_⟩
  · intro b hb
    rcases List.mem_cons.mp hb with hb | hb
    · exact Or.inl hb
    · exact Or.inr (h.2 b hb)
  · have := (scannable_digits ds h).2
    simp only [digitCount]
    omega

theorem scannable_encode (v : Int) (ds : List Nat) (h : Digits ds) : Scannable (encode v ds) := by
  unfold encode
  split
  · exact scannable_hyphen_digits ds h
  · exact scannable_digits ds h

theorem scannable_wellFormed (f : List Nat) (h : WellFormed f) : Scannable f := by
  rcases h with h | ⟨h1, h2⟩
  · exact scannable_digits f h
  · cases f with
    | nil => simp at h1
    | cons b ds =>
      simp only [List.head?_cons, Option.some.injEq] at h1
      subst h1
      exact scannable_hyphen_digits ds h2

theorem fieldValue_encode (v : Int) (ds : List Nat) (h : Digits ds)
    (hv : decimal ds = v.natAbs) (hle : v.natAbs ≤ 32767) : fieldValue (encode v ds) = v := by
  have hacc : accum 0 ds = (decimal ds : Int) :=
    accum_digits ds 0 h.2 (by unfold decimal at hv; omega)
  have hno := not_mem_hyphen ds h.2
  by_cases hneg : v < 0
  · have hm : 45 ∈ 45 :: ds := List.mem_cons_self 45 ds
    have ha : accum 0 (45 :: ds) = accum 0 ds := rfl
    simp only [encode, fieldValue, hneg, if_true, hm, ha]
    rw [hacc, hv]
    unfold wrap16
    omega
  · simp only [encode, fieldValue, hneg, hno, if_false]
    rw [hacc, hv]
    omega

theorem storeFields_outside (fs : List (List Nat)) :
    ∀ (rv : Nat → Int) (j k : Nat), k < j ∨ j + fs.length ≤ k →
      storeFields rv j fs k = rv k := by
  induction fs with
  | nil => intros; rfl
  | cons f fs ih =>
    intro rv j k hk
    simp only [List.length_cons] at hk
    have hne : k ≠ j := by omega
    simp only [storeFields]
    rw [ih _ (j + 1) k (by omega), Function.update_noteq hne]

theorem map_storeFields (fs : List (List Nat)) :
    ∀ (rv : Nat → Int) (j : Nat),
      (List.range' j fs.length).map (storeFields rv j fs) = fs.map fieldValue := by
  induction fs with
  | nil => intros; rfl
  | cons f fs ih =>
    intro rv j
    simp only [List.length_cons, List.range'_succ, List.map_cons, storeFields]
    rw [ih _ (j + 1), storeFields_outside fs _ (j + 1) j (by omega), Function.update_same]

theorem fieldValue_items (items : List (Int × List Nat))
    (hit : ∀ it ∈ items, Digits it.2 ∧ decimal it.2 = it.1.natAbs ∧ it.1.natAbs ≤ 32767) :
    (items.map fun it => encode it.1 it.2).map fieldValue = items.map Prod.fst := by
  induction items with
  | nil => rfl
  | cons it items ih =>
    have h := hit it (List.mem_cons_self it items)
    simp only [List.map_cons]
    rw [fieldValue_encode it.1 it.2 h.1 h.2.1 h.2.2,
      ih (fun a ha => hit a (List.mem_cons_of_mem it ha))]

/-- The result of `parseCommand` on a line whose scanned part is a non-empty
list of scannable fields separated by commas, followed by a comma or NUL at an
index up to 255. -/
theorem parseCommand_separated (c x t N : Nat) (fs : List (List Nat)) (rest : List Nat)
    (rv : Nat → Int) (ht : t = 0 ∨ t = 44) (hne : fs ≠ []) (hfs : ∀ f ∈ fs, Scannable f)
    (hlen : 2 + (commaSeparated fs).length ≤ 255) (hN : fs.length ≤ N) :
    parseCommand (c :: x :: commaSeparated fs ++ t :: rest) rv N
      = if fs.length = N then some (true, storeFields rv 0 fs)
        else if t = 0 then some (false, storeFields rv 0 fs)
        else parseLoop (c :: x :: commaSeparated fs ++ t :: rest) N
              (256 - ((commaSeparated fs).length + 1)) (1 + (commaSeparated fs).length + 1)
              fs.length 0 0 0 (storeFields rv 0 fs) := by
  unfold parseCommand
  have h := parseLoop_separated (c :: x :: commaSeparated fs ++ t :: rest) N t rest ht fs
    (256 - ((commaSeparated fs).length + 1)) 1 0 rv hne hfs (by simp) (by omega) (by omega)
    (by omega) (by omega)
  rw [show 256 - ((commaSeparated fs).length + 1) + ((commaSeparated fs).length + 1) = 256
    by omega] at h
  simpa using h


/-! ## The watchdog and the main loop: claims C3, C4, C8 -/

/-- C3 is not met by the code: the handler compares the byte `timerCounter` (at
most 255) with 1220 and returns early on every invocation, so from every state
with a byte-sized counter any number `n` of consecutive invocations leaves
`connected` and both committed duties exactly as they were. -/
theorem TIMER2_OVF_never_disconnects (s : State) (n : Nat) (h : s.timerCounter < 256) :
    (ticks n s).connected = s.connected ∧ dutyLeft (ticks n s) = dutyLeft s ∧
      dutyRight (ticks n s) = dutyRight s := by
  induction n generalizing s with
  | zero => exact ⟨rfl, rfl, rfl⟩
  | succ n ih =>
    have e : ticks (n + 1) s = ticks n (TIMER2_OVF s) := rfl
    rw [e, TIMER2_OVF_of_byte s h]
    exact ih _ (Nat.mod_lt _ (by decide))

/-- C3, witness: a connected state with no recorded activity and both duties
1023, after 5000 invocations of the handler. -/
theorem TIMER2_OVF_never_disconnects_witness :
    cruising.timerCounter < 256 ∧
    ((ticks 5000 cruising).connected = cruising.connected ∧
      dutyLeft (ticks 5000 cruising) = dutyLeft cruising ∧
      dutyRight (ticks 5000 cruising) = dutyRight cruising) :=
  ⟨by decide, TIMER2_OVF_never_disconnects cruising 5000 (by decide)⟩

/-- C4 is not met by the code: the receive step stores `timerCounter` in the
activity marker, so a line received while the counter is 0 (as it is at
power-on) leaves `com` at 0, also at the end of the whole pass of `loop`. -/
theorem receive_leaves_com_zero (s : State) (inp : Input) :
    (receive s inp.line).com = s.timerCounter ∧ (receive powerOn inp.line).com = 0 ∧
      (loop powerOn (some inp)).1.com = 0 := by
  refine ⟨com_receive s inp.line, com_receive powerOn inp.line, ?_⟩
  have hc : ∀ t : State, (dispatch t inp).1.com = t.com := by
    intro t
    unfold dispatch
    simp only
    split
    · rfl
    · split
      · split
        · split <;> rfl
        · rfl
      · split
        · split
          · exact com_setSpeed _ _ _
          · rfl
        · split
          · rfl
          · split
            · exact com_setSpeed _ _ _
            · rfl
  simp only [loop]
  rw [hc]
  exact com_receive powerOn inp.line

/-- C8: in every state reached from the power-on state by a sequence of line
dispatches and overflow-handler invocations, each an atomic step, `connected`
being false implies that both committed duties are 0. -/
theorem disconnected_implies_stopped (es : List Event)
    (h : (run powerOn es).connected = false) :
    dutyLeft (run powerOn es) = 0 ∧ dutyRight (run powerOn es) = 0 :=
  Stopped_run es powerOn Stopped_powerOn h

/-- C8, witness: the lines `s,50,-50` and `r` with a timer overflow in between. -/
theorem disconnected_implies_stopped_witness :
    (run powerOn [Event.line (lineInput "s,50,-50"), Event.tick,
        Event.line (lineInput "r")]).connected = false ∧
    (dutyLeft (run powerOn [Event.line (lineInput "s,50,-50"),
        Event.tick, Event.line (lineInput "r")]) = 0 ∧
      dutyRight (run powerOn [Event.line (lineInput "s,50,-50"),
        Event.tick, Event.line (lineInput "r")]) = 0) :=
  ⟨by decide,
    disconnected_implies_stopped [Event.line (lineInput "s,50,-50"),
      Event.tick, Event.line (lineInput "r")] (by decide)⟩

/-! ## The duty translator: claims C5, C6, C7 -/

/-- For every non-zero speed other than the most negative `int`, `setSpeed` sets
the direction bit to reverse exactly for a negative speed and commits 1023 above
magnitude 100 and the truncated quotient `1023 * m / 100` otherwise. -/
theorem setSpeed_of_range (s : State) (l r : Int) (hl : -32767 ≤ l ∧ l ≤ 32767)
    (hr : -32767 ≤ r ∧ r ≤ 32767) :
    dutyLeft (setSpeed s l r) = (if l.natAbs > 100 then 1023 else 1023 * l.natAbs / 100) ∧
      dutyRight (setSpeed s l r) = (if r.natAbs > 100 then 1023 else 1023 * r.natAbs / 100) ∧
      (l ≠ 0 → reverseLeft (setSpeed s l r) = decide (l < 0)) ∧
      (r ≠ 0 → reverseRight (setSpeed s l r) = decide (r < 0)) :=
  ⟨by rw [dutyLeft_setSpeed, committed_of_range l hl.1 hl.2],
    by rw [dutyRight_setSpeed, committed_of_range r hr.1 hr.2],
    reverseLeft_setSpeed s l r, reverseRight_setSpeed s l r⟩

/-- C5 is not met by the code at the most negative `int`: the negation of -32768
overflows back to -32768, the test `> 100` fails, and the scaled value
`(long) 1023 * -32768 / 100 = -335216`, stored in the 16-bit variable as -7536,
is committed as the register value 58000 where the claim expects 1023. -/
theorem setSpeed_most_negative (s : State) (v : Int) :
    speedValue (-32768) = -7536 ∧ dutyLeft (setSpeed s (-32768) v) = 58000 ∧
      dutyRight (setSpeed s v (-32768)) = 58000 := by
  refine ⟨by decide, ?_, ?_⟩
  · rw [dutyLeft_setSpeed]
    decide
  · rw [dutyRight_setSpeed]
    decide

/-- C6 as stated fails: `setSpeed(50, -50)` commits duty 511 on both channels,
where rounding to the nearest integer gives 512. -/
theorem setSpeed_half_speed :
    roundedDuty 50 = 512 ∧ dutyLeft (setSpeed powerOn 50 (-50)) = 511 ∧
      dutyRight (setSpeed powerOn 50 (-50)) = 511 := by
  decide

/-- C6 (amended): for every speed in [-100, 100] the committed duty is
`1023 * |v| / 100` truncated to an integer; in particular `setSpeed(50, -50)`
commits duty 511 on both channels, with opposite direction bits (left forward,
right reverse). -/
theorem setSpeed_truncates (s : State) (l r : Int) (hl : -100 ≤ l ∧ l ≤ 100)
    (hr : -100 ≤ r ∧ r ≤ 100) :
    (dutyLeft (setSpeed s l r) = 1023 * l.natAbs / 100 ∧
      dutyRight (setSpeed s l r) = 1023 * r.natAbs / 100) ∧
    (dutyLeft (setSpeed s 50 (-50)) = 511 ∧ dutyRight (setSpeed s 50 (-50)) = 511 ∧
      reverseLeft (setSpeed s 50 (-50)) = false ∧
      reverseRight (setSpeed s 50 (-50)) = true) := by
  have hl1 : ¬ (l.natAbs > 100) := by omega
  have hr1 : ¬ (r.natAbs > 100) := by omega
  refine ⟨⟨?_, ?_⟩, ?_, ?_, ?_, ?_⟩
  · rw [dutyLeft_setSpeed, committed_of_range l (by omega) (by omega), if_neg hl1]
  · rw [dutyRight_setSpeed, committed_of_range r (by omega) (by omega), if_neg hr1]
  · rw [dutyLeft_setSpeed]; decide
  · rw [dutyRight_setSpeed]; decide
  · rw [reverseLeft_setSpeed s 50 (-50) (by decide)]; decide
  · rw [reverseRight_setSpeed s 50 (-50) (by decide)]; decide

/-- C6, witness: speeds 7 and -93 from the power-on state. -/
theorem setSpeed_truncates_witness :
    (((-100 : Int) ≤ 7 ∧ (7 : Int) ≤ 100) ∧ ((-100 : Int) ≤ -93 ∧ (-93 : Int) ≤ 100)) ∧
    ((dutyLeft (setSpeed powerOn 7 (-93)) = 1023 * (7 : Int).natAbs / 100 ∧
      dutyRight (setSpeed powerOn 7 (-93)) = 1023 * (-93 : Int).natAbs / 100) ∧
    (dutyLeft (setSpeed powerOn 50 (-50)) = 511 ∧ dutyRight (setSpeed powerOn 50 (-50)) = 511 ∧
      reverseLeft (setSpeed powerOn 50 (-50)) = false ∧
      reverseRight (setSpeed powerOn 50 (-50)) = true)) :=
  ⟨⟨by decide, by decide⟩, setSpeed_truncates powerOn 7 (-93) (by decide) (by decide)⟩

/-- C7 is not met by the code: for the most negative `int` the value committed to
a channel's compare register is 58000, above 1023; the line `s,-32768,0`
received at power-on makes the main loop commit it to the left channel. -/
theorem setSpeed_duty_above_maximum (s : State) (v : Int) :
    1023 < dutyLeft (setSpeed s (-32768) v) ∧ 1023 < dutyRight (setSpeed s v (-32768)) ∧
      dutyLeft (loop powerOn (some (lineInput "s,-32768,0"))).1
        = 58000 := by
  refine ⟨?_, ?_, by decide⟩
  · rw [dutyLeft_setSpeed]
    decide
  · rw [dutyRight_setSpeed]
    decide


/-! ## The command parser: claims C1, C2, C9, C10 -/

/-- C1: for every N ≥ 1, opcode byte `c`, skipped byte `x` and integers `v1..vN` of
magnitude at most 32767, each written as a non-empty digit string of its
magnitude (leading zeros allowed) after one hyphen when negative, on the line
`c x d(v1) , ... , d(vN)` with its terminating NUL at an index up to 255 (as on
every line the 32-byte buffer `serialData` holds, the only buffer
`parseCommand` is called on) `parseCommand` with `returnNumber = N` returns true,
stores exactly `v1..vN` in `returnValues[0..N-1]` and leaves every other cell as
it was; no sign passes from one field to the next. -/
theorem parseCommand_decimalLine (c x : Nat) (items : List (Int × List Nat))
    (rv : Nat → Int) (hne : items ≠ [])
    (hit : ∀ it ∈ items, Digits it.2 ∧ decimal it.2 = it.1.natAbs ∧ it.1.natAbs ≤ 32767)
    (hlen : (decimalLine c x items).length ≤ 256) :
    ∃ rv1, parseCommand (decimalLine c x items) rv items.length = some (true, rv1) ∧
      (List.range items.length).map rv1 = items.map Prod.fst ∧
      ∀ k, items.length ≤ k → rv1 k = rv k := by
  have hfs : ∀ f ∈ items.map (fun it => encode it.1 it.2), Scannable f := by
    intro f hf
    obtain ⟨it, hmem, rfl⟩ := List.mem_map.mp hf
    exact scannable_encode it.1 it.2 (hit it hmem).1
  have hl : (items.map fun it => encode it.1 it.2).length = items.length := List.length_map _ _
  have hne1 : (items.map fun it => encode it.1 it.2) ≠ [] := by
    intro h
    exact hne (List.map_eq_nil_iff.mp h)
  have hlen1 : 2 + (commaSeparated (items.map fun it => encode it.1 it.2)).length ≤ 255 := by
    simp only [decimalLine, List.length_cons, List.length_append, List.length_nil] at hlen
    omega
  have h := parseCommand_separated c x 0 items.length _ [] rv (Or.inl rfl) hne1 hfs hlen1
    (by omega)
  simp only [hl, if_true] at h
  refine ⟨_, h, ?_, ?_⟩
  · have hm := map_storeFields (items.map fun it => encode it.1 it.2) rv 0
    rw [hl, ← List.range_eq_range'] at hm
    rw [hm, fieldValue_items items hit]
  · intro k hk
    exact storeFields_outside _ rv 0 k (Or.inr (by omega))

/-- C1, witness: the line `s,012,-7` with N = 2. -/
theorem parseCommand_decimalLine_witness :
    ([((12 : Int), [48, 49, 50]), (-7, [55])] ≠ [] ∧
      (∀ it ∈ [((12 : Int), [48, 49, 50]), (-7, [55])],
        Digits it.2 ∧ decimal it.2 = it.1.natAbs ∧ it.1.natAbs ≤ 32767) ∧
      (decimalLine 115 44 [((12 : Int), [48, 49, 50]), (-7, [55])]).length ≤ 256) ∧
    ∃ rv1, parseCommand (decimalLine 115 44 [((12 : Int), [48, 49, 50]), (-7, [55])])
        (fun _ => 0) 2 = some (true, rv1) ∧
      (List.range 2).map rv1 = [12, -7] ∧ ∀ k, 2 ≤ k → rv1 k = 0 :=
  ⟨⟨by decide, by decide, by decide⟩,
    parseCommand_decimalLine 115 44 [((12 : Int), [48, 49, 50]), (-7, [55])] (fun _ => 0)
      (by decide) (by decide) (by decide)⟩

/-- C2 as stated fails: `a7` with `returnNumber = 1` returns false and stores
nothing, where the claim expects success with `[7]`. -/
theorem parseCommand_a7_fails :
    cstring "a7" = [97, 55, 0] ∧
      outcome 1 (parseCommand (cstring "a7") (fun _ => 0) 1) = some (false, [0]) := by
  decide

/-- C2 (amended): on the line `a7` the digit sits in the skipped slot at index 1,
so the scan meets the end of the string with no digit accumulated:
`parseCommand` with `returnNumber = 1` returns false and writes nothing. -/
theorem parseCommand_a7 (rv : Nat → Int) :
    parseCommand (cstring "a7") rv 1 = some (false, rv) := by
  have h : cstring "a7" = [97, 55, 0] := by decide
  rw [h]
  exact parseLoop_empty [97, 55, 0] 1 255 1 0 0 0 rv 0 rfl (Or.inl rfl) (by omega) (by omega)

/-- C9: for every N and k < N, a line whose scanned part is exactly k well-formed
signed decimal fields separated by commas followed by the NUL, with the NUL at
an index up to 255 (as on every line the 32-byte buffer `serialData` holds),
makes `parseCommand` with `returnNumber = N` return false. -/
theorem parseCommand_too_few_fields (c x N : Nat) (fs : List (List Nat)) (rv : Nat → Int)
    (hfs : ∀ f ∈ fs, WellFormed f) (hk : fs.length < N)
    (hlen : (c :: x :: commaSeparated fs ++ [0]).length ≤ 256) :
    Option.map Prod.fst (parseCommand (c :: x :: commaSeparated fs ++ [0]) rv N)
      = some false := by
  cases fs with
  | nil =>
    have h := parseLoop_empty (c :: x :: commaSeparated [] ++ [0]) N 255 1 0 0 0 rv 0 (by rfl)
      (Or.inl rfl) (by omega) (by omega)
    unfold parseCommand
    rw [h]
    rfl
  | cons f fs =>
    have hlen1 : 2 + (commaSeparated (f :: fs)).length ≤ 255 := by
      simp only [List.length_cons, List.length_append, List.length_nil] at hlen
      omega
    have h := parseCommand_separated c x 0 N (f :: fs) [] rv (Or.inl rfl)
      (List.cons_ne_nil f fs) (fun g hg => scannable_wellFormed g (hfs g hg)) hlen1 (by omega)
    have hne : ¬ ((f :: fs).length = N) := by omega
    simp only [hne, if_false, if_true] at h
    rw [h]
    rfl

/-- C9, witness: the line `s,-12` with N = 2 (one field where two are asked). -/
theorem parseCommand_too_few_fields_witness :
    ((∀ f ∈ [[45, 49, 50]], WellFormed f) ∧ [[45, 49, 50]].length < 2 ∧
      (115 :: 44 :: commaSeparated [[45, 49, 50]] ++ [0]).length ≤ 256) ∧
    Option.map Prod.fst
      (parseCommand (115 :: 44 :: commaSeparated [[45, 49, 50]] ++ [0]) (fun _ => 0) 2)
      = some false :=
  ⟨⟨by decide, by decide, by decide⟩,
    parseCommand_too_few_fields 115 44 2 [[45, 49, 50]] (fun _ => 0) (by decide) (by decide)
      (by decide)⟩

/-- C10: if the scan passes k < N fields, each followed by a comma, and then,
after no byte or only hyphens, reaches a comma or the NUL (at an index up to
255, which is as far as the byte-sized index reaches), then `parseCommand`
returns false.  With k = 0 and no hyphen this is a comma in the first scanned
position, with k ≥ 1 and no hyphen two consecutive commas, with hyphens a field
made only of hyphens. -/
theorem parseCommand_empty_field (c x t N : Nat) (fs : List (List Nat)) (hy rest : List Nat)
    (rv : Nat → Int) (hfs : ∀ f ∈ fs, Scannable f) (hhy : ∀ b ∈ hy, b = 45)
    (ht : t = 0 ∨ t = 44) (hk : fs.length < N)
    (hlen : 2 + (commaTerminated fs ++ hy).length ≤ 255) :
    Option.map Prod.fst
      (parseCommand (c :: x :: commaTerminated fs ++ hy ++ t :: rest) rv N) = some false := by
  simp only [List.length_append] at hlen
  have hd0 : (c :: x :: commaTerminated fs ++ hy ++ t :: rest).drop (1 + 1)
      = commaTerminated fs ++ (hy ++ t :: rest) := by
    simp
  have hd1 := drop_of_drop_append _ _ _ _ hd0
  have hd2 := drop_of_drop_append _ _ _ _ hd1
  have hb := getD_of_drop _ _ _ _ hd2
  have hcount : digitCount hy = 0 := by
    clear hd0 hd1 hd2 hb hlen
    induction hy with
    | nil => rfl
    | cons b hy ih =>
      have hb := hhy b (List.mem_cons_self b hy)
      simp only [digitCount, hb, if_true, ih (fun a ha => hhy a (List.mem_cons_of_mem b ha))]
  have h1 := parseLoop_terminated (c :: x :: commaTerminated fs ++ hy ++ t :: rest) N
    (hy ++ t :: rest) fs (256 - (commaTerminated fs).length) 1 0 rv hfs hd0 (by omega)
    (by omega) (by omega) (by omega)
  have h2 := parseLoop_scan (c :: x :: commaTerminated fs ++ hy ++ t :: rest) N (t :: rest) hy
    (256 - (commaTerminated fs).length - hy.length) (1 + (commaTerminated fs).length)
    (0 + fs.length) 0 0 0 (storeFields rv 0 fs) (fun b hb => Or.inl (hhy b hb))
    (by rw [show 1 + (commaTerminated fs).length + 1 = 1 + 1 + (commaTerminated fs).length
          by omega]; exact hd1)
    (by omega) (by omega) (by omega) (by omega)
  have h3 := parseLoop_empty (c :: x :: commaTerminated fs ++ hy ++ t :: rest) N
    (256 - (commaTerminated fs).length - hy.length - 1)
    (1 + (commaTerminated fs).length + hy.length) (0 + fs.length) (if 45 ∈ hy then 1 else 0)
    (accum 0 hy) (storeFields rv 0 fs) t
    (by rw [show 1 + (commaTerminated fs).length + hy.length + 1
          = 1 + 1 + (commaTerminated fs).length + hy.length by omega]; exact hb)
    ht (by omega) (by omega)
  rw [show 256 - (commaTerminated fs).length + (commaTerminated fs).length = 256 by omega] at h1
  rw [show 256 - (commaTerminated fs).length - hy.length + hy.length
        = 256 - (commaTerminated fs).length by omega, hcount] at h2
  rw [show 256 - (commaTerminated fs).length - hy.length - 1 + 1
        = 256 - (commaTerminated fs).length - hy.length by omega] at h3
  unfold parseCommand
  rw [h1, h2, h3]
  rfl

/-- C10, witness: the line `s,5,-,7` with N = 3 (a field made only of a hyphen). -/
theorem parseCommand_empty_field_witness :
    ((∀ f ∈ [[53]], Scannable f) ∧ (∀ b ∈ [45], b = 45) ∧ ((44 : Nat) = 0 ∨ (44 : Nat) = 44) ∧
      [[53]].length < 3 ∧ 2 + (commaTerminated [[53]] ++ [45]).length ≤ 255) ∧
    Option.map Prod.fst
      (parseCommand (115 :: 44 :: commaTerminated [[53]] ++ [45] ++ 44 :: [55, 0])
        (fun _ => 0) 3) = some false :=
  ⟨⟨by decide, by decide, by decide, by decide, by decide⟩,
    parseCommand_empty_field 115 44 44 3 [[53]] [45] [55, 0] (fun _ => 0) (by decide)
      (by decide) (by decide) (by decide) (by decide)⟩


/-! ## The command parser: claims C11, C12 -/

theorem parseLoop_invalid (command : List Nat) (N fuel i j sign ch : Nat) (temp : Int)
    (rv : Nat → Int) (b : Nat) (hb : command.getD (i + 1) 0 = b) (hinv : InvalidByte b)
    (hi : 0 < i) (hi2 : i + 1 ≤ 255) :
    parseLoop command N (fuel + 1) i j sign ch temp rv = some (false, rv) := by
  obtain ⟨h1, h2, h3, h4, h5⟩ := hinv
  have e1 : (i + 1) % 256 = i + 1 := Nat.mod_eq_of_lt (by omega)
  have e3 : (b + 256 - 48) % 256 > 9 := by omega
  have e4 : ¬ (b = 0 ∨ b = 44) := by omega
  have e7 : i ≠ 0 := by omega
  rw [parseLoop]
  simp only [e1, hb, e3, e4, h4, e7, if_false, if_true]

/-- The loop never reads index 1: two buffers that agree at every other index
give the same run from every index below 256. -/
theorem parseLoop_index_one (c1 c2 : List Nat) (N : Nat)
    (hsame : ∀ k, k ≠ 1 → c1.getD k 0 = c2.getD k 0) :
    ∀ (fuel i j sign ch : Nat) (temp : Int) (rv : Nat → Int), i < 256 →
      parseLoop c1 N fuel i j sign ch temp rv = parseLoop c2 N fuel i j sign ch temp rv := by
  intro fuel
  induction fuel with
  | zero => intros; rfl
  | succ f ih =>
    intro i j sign ch temp rv hi
    rw [parseLoop, parseLoop]
    by_cases hz : i = 0
    · simp only [hz, if_true]
    · have hlt : (i + 1) % 256 < 256 := Nat.mod_lt _ (by decide)
      have hne : (i + 1) % 256 ≠ 1 := by omega
      have ih1 : ∀ (j sign ch : Nat) (temp : Int) (rv : Nat → Int),
          parseLoop c1 N f ((i + 1) % 256) j sign ch temp rv
            = parseLoop c2 N f ((i + 1) % 256) j sign ch temp rv :=
        fun j sign ch temp rv => ih _ j sign ch temp rv hlt
      simp only [hsame _ hne, ih1]

/-- C11: if the scan passes k < N fields, each followed by a comma, then any
number of digits and hyphens of the current field, and reaches (at an index up
to 255, which is as far as the byte-sized index reaches) a byte that is not a
digit, a comma, a hyphen or NUL, then `parseCommand` returns false at that byte,
whatever follows; this covers the bytes below the digit 0 and those above the
digit 9. -/
theorem parseCommand_invalid_byte (c x b N : Nat) (fs : List (List Nat)) (g rest : List Nat)
    (rv : Nat → Int) (hfs : ∀ f ∈ fs, Scannable f)
    (hg : ∀ a ∈ g, a = 45 ∨ (48 ≤ a ∧ a ≤ 57)) (hb : InvalidByte b) (hk : fs.length < N)
    (hlen : 2 + (commaTerminated fs ++ g).length ≤ 255) :
    Option.map Prod.fst
      (parseCommand (c :: x :: commaTerminated fs ++ g ++ b :: rest) rv N) = some false := by
  simp only [List.length_append] at hlen
  have hd0 : (c :: x :: commaTerminated fs ++ g ++ b :: rest).drop (1 + 1)
      = commaTerminated fs ++ (g ++ b :: rest) := by
    simp
  have hd1 := drop_of_drop_append _ _ _ _ hd0
  have hd2 := drop_of_drop_append _ _ _ _ hd1
  have hbyte := getD_of_drop _ _ _ _ hd2
  have h1 := parseLoop_terminated (c :: x :: commaTerminated fs ++ g ++ b :: rest) N
    (g ++ b :: rest) fs (256 - (commaTerminated fs).length) 1 0 rv hfs hd0 (by omega)
    (by omega) (by omega) (by omega)
  have h2 := parseLoop_scan (c :: x :: commaTerminated fs ++ g ++ b :: rest) N (b :: rest) g
    (256 - (commaTerminated fs).length - g.length) (1 + (commaTerminated fs).length)
    (0 + fs.length) 0 0 0 (storeFields rv 0 fs) hg
    (by rw [show 1 + (commaTerminated fs).length + 1 = 1 + 1 + (commaTerminated fs).length
          by omega]; exact hd1)
    (by omega) (by omega) (by omega) (by omega)
  have h3 := parseLoop_invalid (c :: x :: commaTerminated fs ++ g ++ b :: rest) N
    (256 - (commaTerminated fs).length - g.length - 1)
    (1 + (commaTerminated fs).length + g.length) (0 + fs.length) (if 45 ∈ g then 1 else 0)
    (0 + digitCount g) (accum 0 g) (storeFields rv 0 fs) b
    (by rw [show 1 + (commaTerminated fs).length + g.length + 1
          = 1 + 1 + (commaTerminated fs).length + g.length by omega]; exact hbyte)
    hb (by omega) (by omega)
  rw [show 256 - (commaTerminated fs).length + (commaTerminated fs).length = 256 by omega] at h1
  rw [show 256 - (commaTerminated fs).length - g.length + g.length
        = 256 - (commaTerminated fs).length by omega] at h2
  rw [show 256 - (commaTerminated fs).length - g.length - 1 + 1
        = 256 - (commaTerminated fs).length - g.length by omega] at h3
  unfold parseCommand
  rw [h1, h2, h3]
  rfl

/-- C11, witness: the line `s,5,1+2` with N = 2; the byte `+` lies below the
digit 0. -/
theorem parseCommand_invalid_byte_witness :
    ((∀ f ∈ [[53]], Scannable f) ∧ (∀ a ∈ [49], a = 45 ∨ (48 ≤ a ∧ a ≤ 57)) ∧
      InvalidByte 43 ∧ [[53]].length < 2 ∧
      2 + (commaTerminated [[53]] ++ [49]).length ≤ 255) ∧
    Option.map Prod.fst
      (parseCommand (115 :: 44 :: commaTerminated [[53]] ++ [49] ++ 43 :: [50, 0])
        (fun _ => 0) 2) = some false :=
  ⟨⟨by decide, by decide, by decide, by decide, by decide⟩,
    parseCommand_invalid_byte 115 44 43 2 [[53]] [49] [50, 0] (fun _ => 0) (by decide)
      (by decide) (by decide) (by decide) (by decide)⟩

/-- C12: the byte at index 1 is never read: two buffers that differ only there
give the same result of `parseCommand` (the same flag and the same stored
values) for every N; in particular `a?7` with N = 1 yields 7 whatever byte
stands in the place of the comma. -/
theorem parseCommand_skips_index_one (c x y N : Nat) (rest : List Nat) (rv : Nat → Int) :
    parseCommand (c :: x :: rest) rv N = parseCommand (c :: y :: rest) rv N ∧
      parseCommand (97 :: x :: [55, 0]) rv 1 = some (true, Function.update rv 0 7) := by
  have hsame : ∀ (a b : Nat) (k : Nat), k ≠ 1 →
      (c :: a :: rest).getD k 0 = (c :: b :: rest).getD k 0 := by
    intro a b k hk
    cases k with
    | zero => rfl
    | succ k =>
      cases k with
      | zero => exact absurd rfl hk
      | succ k => rfl
  refine ⟨parseLoop_index_one _ _ N (hsame x y) 256 1 0 0 0 0 rv (by decide), ?_⟩
  have h := parseCommand_separated 97 x 0 1 [[55]] [] rv (Or.inl rfl) (by decide)
    (by decide) (by decide) (by decide)
  have hv : fieldValue [55] = 7 := by decide
  simpa [commaSeparated, storeFields, hv] using h

/-! ## The command parser: claims C13, C18 -/

theorem accum_digitsOf (f : List Nat) :
    ∀ a : Nat, (∀ b ∈ f, b = 45 ∨ (48 ≤ b ∧ b ≤ 57)) → decimalFrom a (digitsOf f) ≤ 32767 →
      accum (a : Int) f = (decimalFrom a (digitsOf f) : Int) := by
  induction f with
  | nil => intro a _ _; rfl
  | cons b f ih =>
    intro a hf hle
    have hf1 : ∀ c ∈ f, c = 45 ∨ (48 ≤ c ∧ c ≤ 57) := fun c hc => hf c (List.mem_cons_of_mem b hc)
    by_cases h45 : b = 45
    · subst h45
      have e1 : digitsOf (45 :: f) = digitsOf f := rfl
      have e2 : accum (a : Int) (45 :: f) = accum (a : Int) f := rfl
      rw [e1] at hle ⊢
      rw [e2]
      exact ih a hf1 hle
    · have hdig : 48 ≤ b ∧ b ≤ 57 := by
        rcases hf b (List.mem_cons_self b f) with h | h
        · exact absurd h h45
        · exact h
      have e1 : digitsOf (b :: f) = b :: digitsOf f := by
        simp only [digitsOf, h45, if_false]
      have e2 : decimalFrom a (b :: digitsOf f) = decimalFrom (10 * a + (b - 48)) (digitsOf f) :=
        rfl
      rw [e1, e2] at hle ⊢
      have h1 := le_decimalFrom (digitsOf f) (10 * a + (b - 48))
      have hw : wrap16 ((a : Int) * 10 + ((b - 48 : Nat) : Int))
          = ((10 * a + (b - 48) : Nat) : Int) := by
        unfold wrap16
        omega
      simp only [accum, h45, if_false, hw]
      exact ih _ hf1 hle

theorem fieldValue_signedDecimal (f : List Nat) (hf : ∀ b ∈ f, b = 45 ∨ (48 ≤ b ∧ b ≤ 57))
    (hle : decimal (digitsOf f) ≤ 32767) : fieldValue f = signedDecimal f := by
  have hacc : accum 0 f = ((decimal (digitsOf f) : Nat) : Int) := accum_digitsOf f 0 hf hle
  unfold fieldValue signedDecimal
  rw [hacc]
  split
  · unfold wrap16
    omega
  · rfl

theorem map_fieldValue_signedDecimal (fs : List (List Nat))
    (hfs : ∀ f ∈ fs, Scannable f ∧ decimal (digitsOf f) ≤ 32767) :
    fs.map fieldValue = fs.map signedDecimal := by
  induction fs with
  | nil => rfl
  | cons f fs ih =>
    have h := hfs f (List.mem_cons_self f fs)
    simp only [List.map_cons]
    rw [fieldValue_signedDecimal f h.1.1 h.2, ih (fun g hg => hfs g (List.mem_cons_of_mem f hg))]

/-- C13 (amended): for every N ≥ 1 and every line whose scanned part starts with
N well-formed fields separated by commas, each of a magnitude that fits in a
16-bit `int` (at most 32767), the Nth followed by a comma or NUL at an index up
to 255 (as on every line the 32-byte buffer `serialData` holds), `parseCommand`
with `returnNumber = N` returns true whatever bytes follow that terminator; the
stored values are the signed decimal values of the N fields, the same for all
trailing bytes, and every other cell of `returnValues` is left as it was. -/
theorem parseCommand_ignores_trailing (c x t : Nat) (fs : List (List Nat)) (rv : Nat → Int)
    (hne : fs ≠ []) (hfs : ∀ f ∈ fs, WellFormed f ∧ decimal (digitsOf f) ≤ 32767)
    (ht : t = 0 ∨ t = 44) (hlen : 2 + (commaSeparated fs).length ≤ 255) :
    ∃ rv1, (∀ rest : List Nat,
        parseCommand (c :: x :: commaSeparated fs ++ t :: rest) rv fs.length = some (true, rv1)) ∧
      (List.range fs.length).map rv1 = fs.map signedDecimal ∧
      ∀ k, fs.length ≤ k → rv1 k = rv k := by
  have hsc : ∀ f ∈ fs, Scannable f := fun f hf => scannable_wellFormed f (hfs f hf).1
  have hm : (List.range fs.length).map (storeFields rv 0 fs) = fs.map fieldValue := by
    have h := map_storeFields fs rv 0
    rw [← List.range_eq_range'] at h
    exact h
  refine ⟨storeFields rv 0 fs, ?_, ?_, ?_⟩
  · intro rest
    have h := parseCommand_separated c x t fs.length fs rest rv ht hne hsc hlen (Nat.le_refl _)
    simpa using h
  · rw [hm]
    exact map_fieldValue_signedDecimal fs (fun f hf => ⟨hsc f hf, (hfs f hf).2⟩)
  · intro k hk
    exact storeFields_outside fs rv 0 k (Or.inr (by omega))

/-- C13, witness: the fields `12` and `-7` followed by a comma, with N = 2. -/
theorem parseCommand_ignores_trailing_witness :
    ([[49, 50], [45, 55]] ≠ [] ∧
      (∀ f ∈ [[49, 50], [45, 55]], WellFormed f ∧ decimal (digitsOf f) ≤ 32767) ∧
      ((44 : Nat) = 0 ∨ (44 : Nat) = 44) ∧
      2 + (commaSeparated [[49, 50], [45, 55]]).length ≤ 255) ∧
    ∃ rv1, (∀ rest : List Nat,
        parseCommand (115 :: 44 :: commaSeparated [[49, 50], [45, 55]] ++ 44 :: rest)
          (fun _ => 0) [[49, 50], [45, 55]].length = some (true, rv1)) ∧
      (List.range [[49, 50], [45, 55]].length).map rv1
        = [[49, 50], [45, 55]].map signedDecimal ∧
      ∀ k, [[49, 50], [45, 55]].length ≤ k → rv1 k = 0 :=
  ⟨⟨by decide, by decide, by decide, by decide⟩,
    parseCommand_ignores_trailing 115 44 44 [[49, 50], [45, 55]] (fun _ => 0) (by decide)
      (by decide) (by decide) (by decide)⟩

/-- C13 as stated fails: the line `s,40000,1,9` starts with the two well-formed
fields `40000` and `1`, of values 40000 and 1, followed by trailing bytes; with
N = 2 `parseCommand` returns true but stores -25536 and 1 (the 16-bit `temp`
wraps), not the values of the fields. -/
theorem parseCommand_trailing_overflow :
    ((WellFormed (bytes "40000") ∧ WellFormed (bytes "1")) ∧
      [bytes "40000", bytes "1"].map signedDecimal = [40000, 1]) ∧
      outcome 2 (parseCommand (cstring "s,40000,1,9") (fun _ => 0) 2)
        = some (true, [-25536, 1]) := by
  decide

/-- C18 (amended): for fields made only of digits and hyphens, each with at least
one digit and with digits whose decimal value fits in a 16-bit `int`, scanned up
to a terminator at an index up to 255, the value `parseCommand` stores for a
field is the decimal value of its digits with all hyphens deleted, negated
exactly when the field holds a hyphen at any position: `--5` gives -5, `5-`
gives -5 and `1-2` gives -12. -/
theorem parseCommand_hyphens (c x t : Nat) (fs : List (List Nat)) (rest : List Nat)
    (rv : Nat → Int) (hne : fs ≠ [])
    (hfs : ∀ f ∈ fs, Scannable f ∧ decimal (digitsOf f) ≤ 32767) (ht : t = 0 ∨ t = 44)
    (hlen : 2 + (commaSeparated fs).length ≤ 255) :
    (∃ rv1, parseCommand (c :: x :: commaSeparated fs ++ t :: rest) rv fs.length
          = some (true, rv1) ∧
        (List.range fs.length).map rv1 = fs.map signedDecimal) ∧
      outcome 1 (parseCommand (cstring "a,--5") (fun _ => 0) 1) = some (true, [-5]) ∧
      outcome 1 (parseCommand (cstring "a,5-") (fun _ => 0) 1) = some (true, [-5]) ∧
      outcome 1 (parseCommand (cstring "a,1-2") (fun _ => 0) 1) = some (true, [-12]) := by
  refine ⟨⟨storeFields rv 0 fs, ?_, ?_⟩, by decide, by decide, by decide⟩
  · have h := parseCommand_separated c x t fs.length fs rest rv ht hne
      (fun f hf => (hfs f hf).1) hlen (Nat.le_refl _)
    simpa using h
  · have h := map_storeFields fs rv 0
    rw [← List.range_eq_range'] at h
    rw [h]
    exact map_fieldValue_signedDecimal fs hfs

/-- C18, witness: the fields `--5`, `5-` and `1-2` with N = 3. -/
theorem parseCommand_hyphens_witness :
    ([[45, 45, 53], [53, 45], [49, 45, 50]] ≠ [] ∧
      (∀ f ∈ [[45, 45, 53], [53, 45], [49, 45, 50]],
        Scannable f ∧ decimal (digitsOf f) ≤ 32767) ∧
      ((0 : Nat) = 0 ∨ (0 : Nat) = 44) ∧
      2 + (commaSeparated [[45, 45, 53], [53, 45], [49, 45, 50]]).length ≤ 255) ∧
    ((∃ rv1, parseCommand
          (115 :: 44 :: commaSeparated [[45, 45, 53], [53, 45], [49, 45, 50]] ++ 0 :: [])
          (fun _ => 0) [[45, 45, 53], [53, 45], [49, 45, 50]].length = some (true, rv1) ∧
        (List.range [[45, 45, 53], [53, 45], [49, 45, 50]].length).map rv1
          = [[45, 45, 53], [53, 45], [49, 45, 50]].map signedDecimal) ∧
      outcome 1 (parseCommand (cstring "a,--5") (fun _ => 0) 1) = some (true, [-5]) ∧
      outcome 1 (parseCommand (cstring "a,5-") (fun _ => 0) 1) = some (true, [-5]) ∧
      outcome 1 (parseCommand (cstring "a,1-2") (fun _ => 0) 1) = some (true, [-12])) :=
  ⟨⟨by decide, by decide, by decide, by decide⟩,
    parseCommand_hyphens 115 44 0 [[45, 45, 53], [53, 45], [49, 45, 50]] [] (fun _ => 0)
      (by decide) (by decide) (by decide) (by decide)⟩

/-- C18 as stated fails: the field `40000` is made of digits only, its decimal
value is 40000, and `parseCommand` stores -25536 (the 16-bit `temp` wraps). -/
theorem parseCommand_field_overflows :
    (Scannable (bytes "40000") ∧ signedDecimal (bytes "40000") = 40000) ∧
      outcome 1 (parseCommand (cstring "a,40000") (fun _ => 0) 1) = some (true, [-25536]) := by
  decide

/-! ## The duty translator: claims C14, C20 -/

theorem TCCR1A_leftChannel (s : State) (v : Int) :
    (leftChannel s v).1.TCCR1A = tccrAfterLeft s.TCCR1A v := by
  unfold leftChannel tccrAfterLeft
  split
  · rfl
  · split <;> rfl

theorem TCCR1A_rightChannel (s : State) (v : Int) :
    (rightChannel s v).1.TCCR1A = tccrAfterRight s.TCCR1A v := by
  unfold rightChannel tccrAfterRight
  split
  · rfl
  · split <;> rfl

theorem TCCR1A_setSpeed (s : State) (l r : Int) :
    (setSpeed s l r).TCCR1A = tccrAfterRight (tccrAfterLeft 3 l) r := by
  simp [setSpeed, TCCR1A_rightChannel, TCCR1A_leftChannel]

theorem tccrAfter_table (l r : Int) :
    tccrAfterRight (tccrAfterLeft 3 l) r
      = if l = 0 then (if r = 0 then 3 else 35) else (if r = 0 then 131 else 163) := by
  unfold tccrAfterRight tccrAfterLeft
  by_cases hl : l = 0 <;> by_cases hr : r = 0 <;> simp only [hl, hr, if_true, if_false] <;>
    decide

theorem comparatorLeft_setSpeed (s : State) (l r : Int) :
    comparatorLeft (setSpeed s l r) = decide (l ≠ 0) ∧
      ((setSpeed s l r).TCCR1A.testBit COM1A0 = false) := by
  have e1 : Nat.testBit 3 7 = false ∧ Nat.testBit 35 7 = false ∧ Nat.testBit 131 7 = true ∧
      Nat.testBit 163 7 = true := by decide
  have e2 : Nat.testBit 3 6 = false ∧ Nat.testBit 35 6 = false ∧ Nat.testBit 131 6 = false ∧
      Nat.testBit 163 6 = false := by decide
  unfold comparatorLeft
  rw [TCCR1A_setSpeed, tccrAfter_table]
  by_cases hl : l = 0 <;> by_cases hr : r = 0 <;> simp [hl, hr, COM1A1, COM1A0, e1, e2]

theorem comparatorRight_setSpeed (s : State) (l r : Int) :
    comparatorRight (setSpeed s l r) = decide (r ≠ 0) ∧
      ((setSpeed s l r).TCCR1A.testBit COM1B0 = false) := by
  have e1 : Nat.testBit 3 5 = false ∧ Nat.testBit 35 5 = true ∧ Nat.testBit 131 5 = false ∧
      Nat.testBit 163 5 = true := by decide
  have e2 : Nat.testBit 3 4 = false ∧ Nat.testBit 35 4 = false ∧ Nat.testBit 131 4 = false ∧
      Nat.testBit 163 4 = false := by decide
  unfold comparatorRight
  rw [TCCR1A_setSpeed, tccrAfter_table]
  by_cases hl : l = 0 <;> by_cases hr : r = 0 <;> simp [hl, hr, COM1B1, COM1B0, e1, e2]

theorem reverseLeft_setSpeed_zero (s : State) (r : Int) :
    reverseLeft (setSpeed s 0 r) = reverseLeft s := by
  have e1 : (bitNot16 32).testBit 7 = true := by decide
  unfold reverseLeft
  rw [PORTD_setSpeed, testBit_seven_portAfterRight]
  simp [portAfterLeft, testBit_clearBits, PD5, e1]

theorem testBit_six_portAfterLeft (p : Nat) (v : Int) :
    (portAfterLeft p v).testBit 6 = p.testBit 6 := by
  have e1 : (bitNot16 32).testBit 6 = true := by decide
  have e2 : (bitNot16 128).testBit 6 = true := by decide
  have e3 : Nat.testBit 128 6 = false := by decide
  unfold portAfterLeft
  split
  · simp [testBit_clearBits, PD5, e1]
  · split <;> simp [testBit_setBits, testBit_clearBits, e2, e3]

theorem reverseRight_setSpeed_zero (s : State) (l : Int) :
    reverseRight (setSpeed s l 0) = reverseRight s := by
  have e1 : (bitNot16 16).testBit 6 = true := by decide
  unfold reverseRight
  rw [PORTD_setSpeed]
  simp [portAfterRight, testBit_clearBits, PD4, e1, testBit_six_portAfterLeft]

/-- The value committed to a compare register is non-zero exactly for a non-zero
speed, for every 16-bit `int`. -/
theorem committed_ne_zero (v : Int) (h0 : -32768 ≤ v) (h1 : v ≤ 32767) :
    highByte (speedValue v) * 256 + lowByte (speedValue v) ≠ 0 ↔ v ≠ 0 := by
  by_cases hmin : v = -32768
  · subst hmin
    decide
  · rw [committed_of_range v (by omega) h1]
    split <;> omega

/-- C14: for each channel, `setSpeed` with speed 0 commits duty 0, leaves both
comparator-mode bits of the channel clear (output disconnected) and leaves the
channel's direction bit as it was; and for every 16-bit speed the comparator
output of a channel is enabled after the call if and only if the committed duty
is non-zero, which is the case exactly when the speed is non-zero. -/
theorem setSpeed_zero_disconnects (s : State) (l r : Int) (hl : -32768 ≤ l ∧ l ≤ 32767)
    (hr : -32768 ≤ r ∧ r ≤ 32767) :
    (dutyLeft (setSpeed s 0 r) = 0 ∧ comparatorLeft (setSpeed s 0 r) = false ∧
        (setSpeed s 0 r).TCCR1A.testBit COM1A0 = false ∧
        reverseLeft (setSpeed s 0 r) = reverseLeft s) ∧
      (dutyRight (setSpeed s l 0) = 0 ∧ comparatorRight (setSpeed s l 0) = false ∧
        (setSpeed s l 0).TCCR1A.testBit COM1B0 = false ∧
        reverseRight (setSpeed s l 0) = reverseRight s) ∧
      ((comparatorLeft (setSpeed s l r) = true ↔ dutyLeft (setSpeed s l r) ≠ 0) ∧
        (dutyLeft (setSpeed s l r) ≠ 0 ↔ l ≠ 0)) ∧
      ((comparatorRight (setSpeed s l r) = true ↔ dutyRight (setSpeed s l r) ≠ 0) ∧
        (dutyRight (setSpeed s l r) ≠ 0 ↔ r ≠ 0)) := by
  have hdl := committed_ne_zero l hl.1 hl.2
  have hdr := committed_ne_zero r hr.1 hr.2
  refine ⟨⟨?_, ?_, (comparatorLeft_setSpeed s 0 r).2, reverseLeft_setSpeed_zero s r⟩,
    ⟨?_, ?_, (comparatorRight_setSpeed s l 0).2, reverseRight_setSpeed_zero s l⟩,
    ⟨?_, ?_⟩, ⟨?_, ?_⟩⟩
  · rw [dutyLeft_setSpeed]; decide
  · rw [(comparatorLeft_setSpeed s 0 r).1]; decide
  · rw [dutyRight_setSpeed]; decide
  · rw [(comparatorRight_setSpeed s l 0).1]; decide
  · rw [(comparatorLeft_setSpeed s l r).1, dutyLeft_setSpeed, hdl]
    simp
  · rw [dutyLeft_setSpeed]; exact hdl
  · rw [(comparatorRight_setSpeed s l r).1, dutyRight_setSpeed, hdr]
    simp
  · rw [dutyRight_setSpeed]; exact hdr

/-- C14, witness: speeds -32768 and 3 from the power-on state. -/
theorem setSpeed_zero_disconnects_witness :
    (((-32768 : Int) ≤ -32768 ∧ (-32768 : Int) ≤ 32767) ∧
      ((-32768 : Int) ≤ 3 ∧ (3 : Int) ≤ 32767)) ∧
    ((dutyLeft (setSpeed powerOn 0 3) = 0 ∧ comparatorLeft (setSpeed powerOn 0 3) = false ∧
        (setSpeed powerOn 0 3).TCCR1A.testBit COM1A0 = false ∧
        reverseLeft (setSpeed powerOn 0 3) = reverseLeft powerOn) ∧
      (dutyRight (setSpeed powerOn (-32768) 0) = 0 ∧
        comparatorRight (setSpeed powerOn (-32768) 0) = false ∧
        (setSpeed powerOn (-32768) 0).TCCR1A.testBit COM1B0 = false ∧
        reverseRight (setSpeed powerOn (-32768) 0) = reverseRight powerOn) ∧
      ((comparatorLeft (setSpeed powerOn (-32768) 3) = true ↔
          dutyLeft (setSpeed powerOn (-32768) 3) ≠ 0) ∧
        (dutyLeft (setSpeed powerOn (-32768) 3) ≠ 0 ↔ (-32768 : Int) ≠ 0)) ∧
      ((comparatorRight (setSpeed powerOn (-32768) 3) = true ↔
          dutyRight (setSpeed powerOn (-32768) 3) ≠ 0) ∧
        (dutyRight (setSpeed powerOn (-32768) 3) ≠ 0 ↔ (3 : Int) ≠ 0))) :=
  ⟨⟨by decide, by decide⟩, setSpeed_zero_disconnects powerOn (-32768) 3 (by decide) (by decide)⟩

/-- C20: the committed duty is monotone in the requested magnitude: for speeds
`p` and `q` of a channel, both other than the most negative `int`, with
`|p| ≤ |q|`, the duty committed for `p` is at most the duty committed for `q`,
also across the clamp at magnitude 100; the other channel's speed and the prior
state play no part. -/
theorem setSpeed_monotone (s t : State) (p q a b : Int) (hp : -32767 ≤ p ∧ p ≤ 32767)
    (hq : -32767 ≤ q ∧ q ≤ 32767) (hpq : p.natAbs ≤ q.natAbs) :
    dutyLeft (setSpeed s p a) ≤ dutyLeft (setSpeed t q b) ∧
      dutyRight (setSpeed s a p) ≤ dutyRight (setSpeed t b q) := by
  have h : (if p.natAbs > 100 then 1023 else 1023 * p.natAbs / 100)
      ≤ (if q.natAbs > 100 then 1023 else 1023 * q.natAbs / 100) := by
    split <;> split <;> omega
  refine ⟨?_, ?_⟩
  · rw [dutyLeft_setSpeed, dutyLeft_setSpeed, committed_of_range p hp.1 hp.2,
      committed_of_range q hq.1 hq.2]
    exact h
  · rw [dutyRight_setSpeed, dutyRight_setSpeed, committed_of_range p hp.1 hp.2,
      committed_of_range q hq.1 hq.2]
    exact h

/-- C20, witness: magnitudes 100 and 101, on either side of the clamp. -/
theorem setSpeed_monotone_witness :
    (((-32767 : Int) ≤ -100 ∧ (-100 : Int) ≤ 32767) ∧
      ((-32767 : Int) ≤ 101 ∧ (101 : Int) ≤ 32767) ∧
      (-100 : Int).natAbs ≤ (101 : Int).natAbs) ∧
    (dutyLeft (setSpeed powerOn (-100) 0) ≤ dutyLeft (setSpeed cruising 101 5) ∧
      dutyRight (setSpeed powerOn 0 (-100)) ≤ dutyRight (setSpeed cruising 5 101)) :=
  ⟨⟨by decide, by decide, by decide⟩,
    setSpeed_monotone powerOn cruising (-100) 101 0 5 (by decide) (by decide) (by decide)⟩

/-! ## The dispatcher: claims C15, C16, C17 -/

theorem pwm_setSpeed (s : State) (l r : Int) :
    pwm (setSpeed s l r)
      = (highByte (speedValue l) * 256 + lowByte (speedValue l),
          highByte (speedValue r) * 256 + lowByte (speedValue r),
          (portAfterRight (portAfterLeft s.PORTD l) r).testBit 7,
          (portAfterRight (portAfterLeft s.PORTD l) r).testBit 6,
          decide (l ≠ 0), decide (r ≠ 0)) := by
  unfold pwm
  rw [dutyLeft_setSpeed, dutyRight_setSpeed, (comparatorLeft_setSpeed s l r).1,
    (comparatorRight_setSpeed s l r).1]
  unfold reverseLeft reverseRight
  rw [PORTD_setSpeed]

theorem pwm_setSpeed_receive (s : State) (line : List Nat) (l r : Int) :
    pwm (setSpeed (receive s line) l r) = pwm (setSpeed s l r) := by
  rw [pwm_setSpeed, pwm_setSpeed]
  rfl

theorem pwm_loop (s : State) (inp : Input) :
    pwm (loop s (some inp)).1 = pwm (dispatch (receive s inp.line) inp).1 := rfl

theorem dispatch_speed_ok (t : State) (inp : Input) (rv : Nat → Int)
    (hop : t.serialData.getD 0 0 = 115)
    (hok : parseCommand t.serialData inp.locals 2 = some (true, rv)) :
    dispatch t inp = (setSpeed t (rv 0) (rv 1), [Out.text "New speed set"]) := by
  unfold dispatch
  simp only [hop, hok]
  rfl

theorem dispatch_speed_fail (t : State) (inp : Input) (hop : t.serialData.getD 0 0 = 115)
    (hfail : Option.map Prod.fst (parseCommand t.serialData inp.locals 2) ≠ some true) :
    dispatch t inp = (t, [Out.text "Error while setting new speed"]) := by
  unfold dispatch
  simp only [hop]
  cases hp : parseCommand t.serialData inp.locals 2 with
  | none => rfl
  | some p =>
    obtain ⟨b, rv⟩ := p
    cases b with
    | false => rfl
    | true => rw [hp] at hfail; exact absurd rfl hfail

theorem dispatch_adc_fail (t : State) (inp : Input) (hop : t.serialData.getD 0 0 = 97)
    (hfail : Option.map Prod.fst (parseCommand t.serialData inp.locals 1) ≠ some true) :
    dispatch t inp = (t, [Out.text "Error while setting ADC pin"]) := by
  unfold dispatch
  simp only [hop]
  cases hp : parseCommand t.serialData inp.locals 1 with
  | none => rfl
  | some p =>
    obtain ⟨b, rv⟩ := p
    cases b with
    | false => rfl
    | true => rw [hp] at hfail; exact absurd rfl hfail

theorem dispatch_adc_ok (t : State) (inp : Input) (rv : Nat → Int)
    (hop : t.serialData.getD 0 0 = 97)
    (hok : parseCommand t.serialData inp.locals 1 = some (true, rv)) :
    dispatch t inp
      = if rv 0 ≥ 0 ∧ rv 0 ≤ 7 then
          (t, if t.connected then
                (List.range inp.polls).map fun k => Out.sample (rv 0) (inp.adc (rv 0) k)
              else [])
        else (t, [Out.text "Error while setting ADC pin"]) := by
  unfold dispatch
  simp only [hop, hok]
  rfl

/-- C15: for every received line with opcode `s` on which `parseCommand` with
N = 2 does not succeed, the pass of the main loop answers with the single line
"Error while setting new speed" and leaves the PWM state (both duties, both
direction bits, both comparator enables) as it was. -/
theorem loop_speed_error (s : State) (inp : Input)
    (hop : (receive s inp.line).serialData.getD 0 0 = 115)
    (hfail : Option.map Prod.fst (parseCommand (receive s inp.line).serialData inp.locals 2)
      ≠ some true) :
    (loop s (some inp)).2 = [Out.text "Error while setting new speed"] ∧
      pwm (loop s (some inp)).1 = pwm s := by
  have h := dispatch_speed_fail (receive s inp.line) inp hop hfail
  refine ⟨?_, ?_⟩
  · show (dispatch (receive s inp.line) inp).2 = _
    rw [h]
  · rw [pwm_loop, h]
    rfl

/-- C15, witness: the line `s,abc,5` received at power-on. -/
theorem loop_speed_error_witness :
    ((receive powerOn (lineInput "s,abc,5").line).serialData.getD 0 0 = 115 ∧
      Option.map Prod.fst (parseCommand (receive powerOn (lineInput "s,abc,5").line).serialData
        (lineInput "s,abc,5").locals 2) ≠ some true) ∧
    ((loop powerOn (some (lineInput "s,abc,5"))).2 = [Out.text "Error while setting new speed"] ∧
      pwm (loop powerOn (some (lineInput "s,abc,5"))).1 = pwm powerOn) :=
  ⟨⟨by decide, by decide⟩, loop_speed_error powerOn (lineInput "s,abc,5") (by decide) (by decide)⟩

/-- C16: for every received line with opcode `s` on which `parseCommand` with
N = 2 succeeds with the values `(l, r)`, the pass of the main loop answers with
the single line "New speed set" and the resulting PWM state is that of
`setSpeed(l, r)`; for the line `s,100,0` read into a cleared buffer this is left
duty 1023 with direction forward, right duty 0 and the right comparator
disabled. -/
theorem loop_speed_set (s : State) (inp : Input) (rv : Nat → Int)
    (hop : (receive s inp.line).serialData.getD 0 0 = 115)
    (hok : parseCommand (receive s inp.line).serialData inp.locals 2 = some (true, rv)) :
    ((loop s (some inp)).2 = [Out.text "New speed set"] ∧
      pwm (loop s (some inp)).1 = pwm (setSpeed s (rv 0) (rv 1))) ∧
    ∀ s0 : State, s0.serialData = List.replicate 32 0 →
      (loop s0 (some (lineInput "s,100,0"))).2 = [Out.text "New speed set"] ∧
      dutyLeft (loop s0 (some (lineInput "s,100,0"))).1 = 1023 ∧
      reverseLeft (loop s0 (some (lineInput "s,100,0"))).1 = false ∧
      dutyRight (loop s0 (some (lineInput "s,100,0"))).1 = 0 ∧
      comparatorRight (loop s0 (some (lineInput "s,100,0"))).1 = false := by
  have gen : ∀ (s : State) (inp : Input) (rv : Nat → Int),
      (receive s inp.line).serialData.getD 0 0 = 115 →
      parseCommand (receive s inp.line).serialData inp.locals 2 = some (true, rv) →
      (loop s (some inp)).2 = [Out.text "New speed set"] ∧
        pwm (loop s (some inp)).1 = pwm (setSpeed s (rv 0) (rv 1)) := by
    intro s inp rv hop hok
    have h := dispatch_speed_ok (receive s inp.line) inp rv hop hok
    refine ⟨?_, ?_⟩
    · show (dispatch (receive s inp.line) inp).2 = _
      rw [h]
    · rw [pwm_loop, h]
      exact pwm_setSpeed_receive s inp.line (rv 0) (rv 1)
  refine ⟨gen s inp rv hop hok, ?_⟩
  intro s0 h0
  have hbuf : (receive s0 (lineInput "s,100,0").line).serialData
      = readBytesUntil (List.replicate 32 0) (bytes "s,100,0") := by
    show readBytesUntil s0.serialData (bytes "s,100,0") = _
    rw [h0]
  have hop0 : (receive s0 (lineInput "s,100,0").line).serialData.getD 0 0 = 115 := by
    rw [hbuf]; decide
  have hv : outcome 2 (parseCommand (readBytesUntil (List.replicate 32 0) (bytes "s,100,0"))
      (fun _ => 0) 2) = some (true, [100, 0]) := by decide
  cases hp : parseCommand (readBytesUntil (List.replicate 32 0) (bytes "s,100,0"))
      (fun _ => 0) 2 with
  | none => rw [hp] at hv; exact absurd hv (by simp [outcome])
  | some p =>
    obtain ⟨b, rv0⟩ := p
    rw [hp] at hv
    simp only [outcome, Option.map_some', Option.some.injEq, Prod.mk.injEq] at hv
    obtain ⟨hb, hvals⟩ := hv
    subst hb
    have hr0 : rv0 0 = 100 := by
      have := congrArg (fun l => l.getD 0 0) hvals
      simpa [List.range, List.range.loop] using this
    have hr1 : rv0 1 = 0 := by
      have := congrArg (fun l => l.getD 1 0) hvals
      simpa [List.range, List.range.loop] using this
    have hok0 : parseCommand (receive s0 (lineInput "s,100,0").line).serialData
        (lineInput "s,100,0").locals 2 = some (true, rv0) := by
      rw [hbuf]; exact hp
    obtain ⟨hout, hpwm⟩ := gen s0 (lineInput "s,100,0") rv0 hop0 hok0
    rw [hr0, hr1, pwm_setSpeed] at hpwm
    unfold pwm at hpwm
    simp only [Prod.mk.injEq] at hpwm
    obtain ⟨h1, h2, h3, _, _, h6⟩ := hpwm
    refine ⟨hout, ?_, ?_, ?_, ?_⟩
    · rw [h1]; decide
    · rw [h3, ← PORTD_setSpeed s0 100 0]
      exact reverseLeft_setSpeed s0 100 0 (by decide)
    · rw [h2]; decide
    · rw [h6]; decide

/-- C17: for every received line with opcode `a`: if `parseCommand` with N = 1
does not succeed, or succeeds with a channel outside [0, 7], the pass of the
main loop emits exactly the line "Error while setting ADC pin" (no sample) and
leaves the PWM state as it was; if it succeeds with a channel in [0, 7], the
output consists only of samples of that channel (no error line) and the PWM state
is unchanged.  The line `a,5` is accepted with channel 5; `a,8` and `a,-1` are
rejected. -/
theorem loop_adc (s : State) (inp : Input)
    (hop : (receive s inp.line).serialData.getD 0 0 = 97) :
    (Option.map Prod.fst (parseCommand (receive s inp.line).serialData inp.locals 1) ≠ some true →
        (loop s (some inp)).2 = [Out.text "Error while setting ADC pin"] ∧
          pwm (loop s (some inp)).1 = pwm s) ∧
      (∀ rv, parseCommand (receive s inp.line).serialData inp.locals 1 = some (true, rv) →
        ¬ (0 ≤ rv 0 ∧ rv 0 ≤ 7) →
        (loop s (some inp)).2 = [Out.text "Error while setting ADC pin"] ∧
          pwm (loop s (some inp)).1 = pwm s) ∧
      (∀ rv, parseCommand (receive s inp.line).serialData inp.locals 1 = some (true, rv) →
        0 ≤ rv 0 ∧ rv 0 ≤ 7 →
        (loop s (some inp)).2
            = (List.range inp.polls).map (fun k => Out.sample (rv 0) (inp.adc (rv 0) k)) ∧
          pwm (loop s (some inp)).1 = pwm s) ∧
      ((loop powerOn (some (probeInput "a,5"))).2 = [Out.sample 5 500, Out.sample 5 501] ∧
        (loop powerOn (some (probeInput "a,8"))).2 = [Out.text "Error while setting ADC pin"] ∧
        (loop powerOn (some (probeInput "a,-1"))).2
          = [Out.text "Error while setting ADC pin"]) := by
  refine ⟨?_, ?_, ?_, by decide, by decide, by decide⟩
  · intro hfail
    have h := dispatch_adc_fail (receive s inp.line) inp hop hfail
    refine ⟨?_, ?_⟩
    · show (dispatch (receive s inp.line) inp).2 = _
      rw [h]
    · rw [pwm_loop, h]
      rfl
  · intro rv hok hout
    have h := dispatch_adc_ok (receive s inp.line) inp rv hop hok
    have hc : ¬ (rv 0 ≥ 0 ∧ rv 0 ≤ 7) := hout
    rw [if_neg hc] at h
    refine ⟨?_, ?_⟩
    · show (dispatch (receive s inp.line) inp).2 = _
      rw [h]
    · rw [pwm_loop, h]
      rfl
  · intro rv hok hin
    have h := dispatch_adc_ok (receive s inp.line) inp rv hop hok
    have hc : rv 0 ≥ 0 ∧ rv 0 ≤ 7 := hin
    rw [if_pos hc, connected_receive, if_pos rfl] at h
    refine ⟨?_, ?_⟩
    · show (dispatch (receive s inp.line) inp).2 = _
      rw [h]
    · rw [pwm_loop, h]
      rfl

/-- C17, witness: the line `a,5` received at power-on. -/
theorem loop_adc_witness :
    (receive powerOn (probeInput "a,5").line).serialData.getD 0 0 = 97 ∧
    ((Option.map Prod.fst (parseCommand (receive powerOn (probeInput "a,5").line).serialData
          (probeInput "a,5").locals 1) ≠ some true →
        (loop powerOn (some (probeInput "a,5"))).2 = [Out.text "Error while setting ADC pin"] ∧
          pwm (loop powerOn (some (probeInput "a,5"))).1 = pwm powerOn) ∧
      (∀ rv, parseCommand (receive powerOn (probeInput "a,5").line).serialData
          (probeInput "a,5").locals 1 = some (true, rv) →
        ¬ (0 ≤ rv 0 ∧ rv 0 ≤ 7) →
        (loop powerOn (some (probeInput "a,5"))).2 = [Out.text "Error while setting ADC pin"] ∧
          pwm (loop powerOn (some (probeInput "a,5"))).1 = pwm powerOn) ∧
      (∀ rv, parseCommand (receive powerOn (probeInput "a,5").line).serialData
          (probeInput "a,5").locals 1 = some (true, rv) →
        0 ≤ rv 0 ∧ rv 0 ≤ 7 →
        (loop powerOn (some (probeInput "a,5"))).2
            = (List.range (probeInput "a,5").polls).map
                (fun k => Out.sample (rv 0) ((probeInput "a,5").adc (rv 0) k)) ∧
          pwm (loop powerOn (some (probeInput "a,5"))).1 = pwm powerOn) ∧
      ((loop powerOn (some (probeInput "a,5"))).2 = [Out.sample 5 500, Out.sample 5 501] ∧
        (loop powerOn (some (probeInput "a,8"))).2 = [Out.text "Error while setting ADC pin"] ∧
        (loop powerOn (some (probeInput "a,-1"))).2
          = [Out.text "Error while setting ADC pin"])) :=
  ⟨by decide, loop_adc powerOn (probeInput "a,5") (by decide)⟩

/-- C16, witness: the line `s,100,0` received at power-on, which parses to the
values 100 and 0. -/
theorem loop_speed_set_witness :
    ((receive powerOn (lineInput "s,100,0").line).serialData.getD 0 0 = 115 ∧
      parseCommand (receive powerOn (lineInput "s,100,0").line).serialData
        (lineInput "s,100,0").locals 2
          = some (true, Function.update (Function.update (fun _ => 0) 0 100) 1 0)) ∧
    (((loop powerOn (some (lineInput "s,100,0"))).2 = [Out.text "New speed set"] ∧
      pwm (loop powerOn (some (lineInput "s,100,0"))).1
        = pwm (setSpeed powerOn
            ((Function.update (Function.update (fun _ => 0) 0 100) 1 0 : Nat → Int) 0)
            ((Function.update (Function.update (fun _ => 0) 0 100) 1 0 : Nat → Int) 1))) ∧
    ∀ s0 : State, s0.serialData = List.replicate 32 0 →
      (loop s0 (some (lineInput "s,100,0"))).2 = [Out.text "New speed set"] ∧
      dutyLeft (loop s0 (some (lineInput "s,100,0"))).1 = 1023 ∧
      reverseLeft (loop s0 (some (lineInput "s,100,0"))).1 = false ∧
      dutyRight (loop s0 (some (lineInput "s,100,0"))).1 = 0 ∧
      comparatorRight (loop s0 (some (lineInput "s,100,0"))).1 = false) :=
  ⟨⟨by decide, by rfl⟩,
    loop_speed_set powerOn (lineInput "s,100,0")
      (Function.update (Function.update (fun _ => 0) 0 100) 1 0) (by decide) (by rfl)⟩

/-! ## The command parser on the 32-byte buffer: claim C19 -/

/-- The logged loop returns what `parseLoop` returns. -/
theorem parseLoopLog_fst (command : List Nat) (N : Nat) :
    ∀ (fuel i j sign ch : Nat) (temp : Int) (rv : Nat → Int) (reads writes : List Nat),
      (parseLoopLog command N fuel i j sign ch temp rv reads writes).1
        = parseLoop command N fuel i j sign ch temp rv := by
  intro fuel
  induction fuel with
  | zero => intros; rfl
  | succ f ih =>
    intro i j sign ch temp rv reads writes
    rw [parseLoopLog, parseLoop]
    simp only
    split_ifs <;> first | rfl | exact ih _ _ _ _ _ _ _ _

theorem getD_replicate_zero (k : Nat) : ∀ n, (List.replicate k 0).getD n 0 = 0 := by
  induction k with
  | zero => intro n; rfl
  | succ k ih =>
    intro n
    cases n with
    | zero => rfl
    | succ n => exact ih n

theorem getD_append_replicate (l : List Nat) (k : Nat) :
    ∀ n, l.length ≤ n → (l ++ List.replicate k 0).getD n 0 = 0 := by
  induction l with
  | nil => intro n _; exact getD_replicate_zero k n
  | cons a l ih =>
    intro n hn
    cases n with
    | zero => simp at hn
    | succ n => exact ih n (by simpa using hn)

/-- Reading at most 31 bytes into a cleared 32-byte buffer leaves a 32-byte
buffer with a NUL at index 31. -/
theorem readBytesUntil_cleared (line : List Nat) :
    (readBytesUntil (List.replicate 32 0) line).length = 32 ∧
      (readBytesUntil (List.replicate 32 0) line).getD 31 0 = 0 := by
  have hl : (line.take 31).length ≤ 31 := by
    rw [List.length_take]
    omega
  unfold readBytesUntil
  rw [List.drop_replicate]
  refine ⟨?_, getD_append_replicate _ _ 31 hl⟩
  rw [List.length_append, List.length_replicate]
  omega

/-- On a buffer with a NUL at index 31, the logged loop started at an index
between 1 and 30 with enough fuel returns, reads only indices 2..31 and writes
only cells below `N`. -/
theorem parseLoopLog_buffer (command : List Nat) (N : Nat) (hnul : command.getD 31 0 = 0) :
    ∀ (fuel i j sign ch : Nat) (temp : Int) (rv : Nat → Int) (reads writes : List Nat),
      1 ≤ i → i ≤ 30 → 31 ≤ fuel + i → j < i → j < N →
      (∀ k ∈ reads, 2 ≤ k ∧ k ≤ 31) → (∀ k ∈ writes, k < N) →
      (∃ b rv1, (parseLoopLog command N fuel i j sign ch temp rv reads writes).1 = some (b, rv1) ∧
          ∀ k, N ≤ k → rv1 k = rv k) ∧
        (∀ k ∈ (parseLoopLog command N fuel i j sign ch temp rv reads writes).2.1,
          2 ≤ k ∧ k ≤ 31) ∧
        (∀ k ∈ (parseLoopLog command N fuel i j sign ch temp rv reads writes).2.2, k < N) := by
  intro fuel
  induction fuel with
  | zero => intro i _ _ _ _ _ _ _ _ _ h30 h31; omega
  | succ f ih =>
    intro i j sign ch temp rv reads writes h1 h30 hfuel hji hjN hreads hwrites
    have e1 : (i + 1) % 256 = i + 1 := Nat.mod_eq_of_lt (by omega)
    have e2 : (j + 1) % 256 = j + 1 := Nat.mod_eq_of_lt (by omega)
    have e7 : i ≠ 0 := by omega
    have hjne : j ≠ N := by omega
    have hreads1 : ∀ k ∈ (i + 1) :: reads, 2 ≤ k ∧ k ≤ 31 := by
      intro k hk
      rcases List.mem_cons.mp hk with h | h
      · omega
      · exact hreads k h
    have hwrites1 : ∀ k ∈ j :: writes, k < N := by
      intro k hk
      rcases List.mem_cons.mp hk with h | h
      · omega
      · exact hwrites k h
    have hnext : command.getD (i + 1) 0 ≠ 0 → i + 1 ≤ 30 := by
      intro hc
      by_contra hcon
      have : i + 1 = 31 := by omega
      rw [this] at hc
      exact hc hnul
    have hframe : ∀ (v : Int) (k : Nat), N ≤ k → Function.update rv j v k = rv k := by
      intro v k hk
      have hkj : k ≠ j := by omega
      exact Function.update_noteq hkj v rv
    rw [parseLoopLog]
    simp only [e1, e2, e7, hjne, if_false]
    generalize (if sign ≠ 0 then wrap16 (-temp) else temp) = v
    split_ifs with hc hch hj1 hc0 h45 hnum
    · exact ⟨⟨true, _, rfl, hframe _⟩, hreads1, hwrites1⟩
    · exact ⟨⟨false, _, rfl, hframe _⟩, hreads1, hwrites1⟩
    · obtain ⟨⟨b, rv1, hres, hfr⟩, hr, hw⟩ := ih (i + 1) (j + 1) 0 0 0
        (Function.update rv j v) ((i + 1) :: reads)
        (j :: writes) (by omega) (hnext hc0) (by omega) (by omega) (by omega) hreads1 hwrites1
      exact ⟨⟨b, rv1, hres, fun k hk => (hfr k hk).trans (hframe _ k hk)⟩, hr, hw⟩
    · exact ⟨⟨false, rv, rfl, fun _ _ => rfl⟩, hreads1, hwrites⟩
    · have hc0 : command.getD (i + 1) 0 ≠ 0 := by omega
      exact ih (i + 1) j 1 ch temp rv ((i + 1) :: reads) writes (by omega) (hnext hc0)
        (by omega) (by omega) hjN hreads1 hwrites
    · exact ⟨⟨false, rv, rfl, fun _ _ => rfl⟩, hreads1, hwrites⟩
    · have hc0 : command.getD (i + 1) 0 ≠ 0 := by omega
      exact ih (i + 1) j sign ((ch + 1) % 256) _ rv ((i + 1) :: reads) writes (by omega)
        (hnext hc0) (by omega) (by omega) hjN hreads1 hwrites

/-- C19: for every 32-byte buffer with a NUL at index 31 (which the receive
step produces from a cleared buffer) and every N ≥ 1, `parseCommand` returns an
explicit true or false: the loop is never left without a `return`, every read of
the buffer is at an index in 2..31 (so inside the buffer, and the byte index
never wraps to 0), and every write goes to a cell `returnValues[k]` with k < N,
the other cells keeping their contents. -/
theorem parseCommand_buffer (buf : List Nat) (rv : Nat → Int) (N : Nat)
    (hlen : buf.length = 32) (hnul : buf.getD 31 0 = 0) (hN : 1 ≤ N) :
    (parseCommandLog buf rv N).1 = parseCommand buf rv N ∧
      (∃ b rv1, parseCommand buf rv N = some (b, rv1) ∧ ∀ k, N ≤ k → rv1 k = rv k) ∧
      (∀ k ∈ (parseCommandLog buf rv N).2.1, 2 ≤ k ∧ k ≤ 31 ∧ k < buf.length) ∧
      (∀ k ∈ (parseCommandLog buf rv N).2.2, k < N) ∧
      (∀ (s : State) (line : List Nat), s.serialData = List.replicate 32 0 →
        (receive s line).serialData.length = 32 ∧ (receive s line).serialData.getD 31 0 = 0) := by
  have hfst : (parseCommandLog buf rv N).1 = parseCommand buf rv N :=
    parseLoopLog_fst buf N 256 1 0 0 0 0 rv [] []
  obtain ⟨hres, hr, hw⟩ := parseLoopLog_buffer buf N hnul 256 1 0 0 0 0 rv [] [] (by omega)
    (by omega) (by omega) (by omega) (by omega) (by simp) (by simp)
  refine ⟨hfst, ?_, ?_, hw, ?_⟩
  · rw [← hfst]
    exact hres
  · intro k hk
    have := hr k hk
    omega
  · intro s line hs
    show (readBytesUntil s.serialData line).length = 32 ∧
      (readBytesUntil s.serialData line).getD 31 0 = 0
    rw [hs]
    exact readBytesUntil_cleared line

/-- C19, witness: the buffer holding `s,12,-7` after a cleared 32-byte buffer
received that line, with N = 2. -/
theorem parseCommand_buffer_witness :
    ((readBytesUntil (List.replicate 32 0) (bytes "s,12,-7")).length = 32 ∧
      (readBytesUntil (List.replicate 32 0) (bytes "s,12,-7")).getD 31 0 = 0 ∧ 1 ≤ 2) ∧
    ((parseCommandLog (readBytesUntil (List.replicate 32 0) (bytes "s,12,-7")) (fun _ => 0) 2).1
        = parseCommand (readBytesUntil (List.replicate 32 0) (bytes "s,12,-7")) (fun _ => 0) 2 ∧
      (∃ b rv1, parseCommand (readBytesUntil (List.replicate 32 0) (bytes "s,12,-7"))
          (fun _ => 0) 2 = some (b, rv1) ∧ ∀ k, 2 ≤ k → rv1 k = 0) ∧
      (∀ k ∈ (parseCommandLog (readBytesUntil (List.replicate 32 0) (bytes "s,12,-7"))
          (fun _ => 0) 2).2.1,
        2 ≤ k ∧ k ≤ 31 ∧ k < (readBytesUntil (List.replicate 32 0) (bytes "s,12,-7")).length) ∧
      (∀ k ∈ (parseCommandLog (readBytesUntil (List.replicate 32 0) (bytes "s,12,-7"))
          (fun _ => 0) 2).2.2, k < 2) ∧
      (∀ (s : State) (line : List Nat), s.serialData = List.replicate 32 0 →
        (receive s line).serialData.length = 32 ∧
          (receive s line).serialData.getD 31 0 = 0)) :=
  ⟨⟨by decide, by decide, by decide⟩,
    parseCommand_buffer (readBytesUntil (List.replicate 32 0) (bytes "s,12,-7")) (fun _ => 0) 2
      (by decide) (by decide) (by decide)⟩

end Alfred
